import Mathlib

/-!
# net/api.hh: the IPv4 address value model

A shallow embedding of `ipv4_addr`, `socket_address`, `make_ipv4_address` and the
stream output operator of `src/net/api.hh`, together with the library routines the
header calls (`boost::split`, `address_v4::from_string`, `std::stoul`, `htons`/`htonl`).

Conventions:
* a `std::string` is a `List Char`;
* `uint32_t`/`uint16_t` values are `Nat` with explicit reduction modulo `2^32`/`2^16`;
* a thrown exception is the `error` case of `Except Exn`;
* an output stream is the list of characters written so far, in the default
  formatting state (decimal, no width, classic locale).
-/

namespace Seastar

/-! ## Exceptions -/

/-- The exception types that can leave the string constructor of `ipv4_addr`:
`boost::system::system_error` (thrown by `address_v4::from_string`),
`std::invalid_argument` and `std::out_of_range`, the latter two with the text their
`what()` returns, a C string. -/
inductive Exn where
  | system_error : Exn
  | invalid_argument (what : List Char) : Exn
  | out_of_range (what : List Char) : Exn
deriving DecidableEq, Repr

deriving instance DecidableEq for Except

/-! ## Characters and decimal numbers -/

/-- The C `isdigit` test in the classic locale. -/
def isdigit (c : Char) : Bool := decide (48 ≤ c.toNat) && decide (c.toNat ≤ 57)

/-- The C `isspace` test in the classic locale: space, `\t`, `\n`, `\v`, `\f`, `\r`. -/
def isspace (c : Char) : Bool := decide (c.toNat = 32) || (decide (9 ≤ c.toNat) && decide (c.toNat ≤ 13))

/-- Value of a decimal digit character, `ch - '0'`. -/
def digitVal (c : Char) : Nat := c.toNat - 48

/-- Value of a run of decimal digits read left to right from the accumulator `acc`. -/
def digitsVal (acc : Nat) (ds : List Char) : Nat := ds.foldl (fun a c => a * 10 + digitVal c) acc

/-- Decimal rendering of an unsigned number as a stream inserter or `%d` produces it:
no sign, no padding. -/
def decimal (n : Nat) : List Char := Nat.toDigits 10 n

/-- The bytes of `std::string::c_str()` as a C routine sees them: up to the first NUL. -/
def c_str (s : List Char) : List Char := s.takeWhile (fun c => c.toNat != 0)

/-! ## boost::split -/

/-- Model of `boost::split(items, s, boost::is_any_of(sep))` with the default
`token_compress_off`: one item per separator plus one, empty items kept. -/
def split (sep : Char) : List Char → List (List Char)
  | [] => [[]]
  | c :: cs =>
    if c = sep then [] :: split sep cs
    else
      match split sep cs with
      | [] => [[c]]
      | x :: xs => (c :: x) :: xs

/-! ## inet_pton(AF_INET) and address_v4 -/

/-- Local variables of the C library's `inet_pton4` loop: `saw_digit`, `octets`,
the bytes of `tmp` below `tp` (latest first) and the byte `*tp`. -/
structure pton_state where
  saw_digit : Bool
  octets : Nat
  done : List Nat
  cur : Nat
deriving DecidableEq, Repr

/-- One iteration of the `inet_pton4` loop on the character `ch`; `none` is `return 0`. -/
def inet_pton4_step (st : pton_state) (ch : Char) : Option pton_state :=
  if isdigit ch then
    let new := st.cur * 10 + digitVal ch
    if st.saw_digit ∧ st.cur = 0 then none
    else if new > 255 then none
    else if st.saw_digit then some { st with cur := new }
    else if st.octets + 1 > 4 then none
    else some { saw_digit := true, octets := st.octets + 1, done := st.done, cur := new }
  else if ch = '.' ∧ st.saw_digit then
    if st.octets = 4 then none
    else some { saw_digit := false, octets := st.octets, done := st.cur :: st.done, cur := 0 }
  else none

/-- The `inet_pton4` loop over the rest of the source text. -/
def inet_pton4_loop : pton_state → List Char → Option pton_state
  | st, [] => some st
  | st, ch :: src =>
    match inet_pton4_step st ch with
    | none => none
    | some st1 => inet_pton4_loop st1 src

/-- Model of `inet_pton(AF_INET, src, dst)`: the four address bytes in network
order, or `none` when the text is not a dotted quad. -/
def inet_pton4 (src : List Char) : Option (List Nat) :=
  match inet_pton4_loop { saw_digit := false, octets := 0, done := [], cur := 0 } src with
  | none => none
  | some st => if st.octets < 4 then none else some (st.cur :: st.done).reverse

/-- Model of `boost::asio::ip::address_v4::from_string(const std::string&)`: it hands
`str.c_str()` to `inet_pton` and throws `boost::system::system_error` on failure.
The address is kept as its four bytes in network order. -/
def address_v4.from_string (str : List Char) : Except Exn (List Nat) :=
  match inet_pton4 (c_str str) with
  | none => .error Exn.system_error
  | some bytes => .ok bytes

/-- Model of `address_v4::to_ulong()`: the address as a host-order number. -/
def address_v4.to_ulong (bytes : List Nat) : Nat := bytes.foldl (fun a b => a * 256 + b) 0

/-! ## std::stoul -/

/-- Largest `unsigned long` (LP64). -/
def ULONG_MAX : Nat := 2 ^ 64 - 1

/-- Optional sign of `strtoul`: whether the number is negated, and the rest. -/
def strtoul_sign : List Char → Bool × List Char
  | [] => (false, [])
  | c :: r => if c = '-' then (true, r) else if c = '+' then (false, r) else (false, c :: r)

/-- Model of `strtoul(nptr, &endptr, 10)`: skip white space, take an optional sign,
read the longest run of digits. `none` is "no conversion" (`endptr == nptr`);
otherwise the value and whether `errno` was set to `ERANGE`. -/
def strtoul (nptr : List Char) : Option (Nat × Bool) :=
  let s := strtoul_sign (nptr.dropWhile isspace)
  let ds := s.2.takeWhile isdigit
  if ds = [] then none
  else
    let v := digitsVal 0 ds
    if v > ULONG_MAX then some (ULONG_MAX, true)
    else some (if s.1 then (ULONG_MAX + 1 - v) % (ULONG_MAX + 1) else v, false)

/-- Model of `std::stoul(str)`: `std::invalid_argument("stoul")` when nothing converts,
`std::out_of_range("stoul")` on overflow, the value otherwise. -/
def stoul (str : List Char) : Except Exn Nat :=
  match strtoul (c_str str) with
  | none => .error (Exn.invalid_argument "stoul".toList)
  | some (v, erange) => if erange then .error (Exn.out_of_range "stoul".toList) else .ok v

/-! ## ipv4_addr -/

/-- The struct `ipv4_addr`: `uint32_t ip; uint16_t port`, both in host byte order. -/
structure ipv4_addr where
  ip : Nat
  port : Nat
deriving DecidableEq, Repr

/-- The constructor `std::invalid_argument(const std::string& msg)`: `what()` returns
`msg.c_str()`, so the text ends at the first NUL of `msg`. -/
def std_invalid_argument (msg : List Char) : Exn := Exn.invalid_argument (c_str msg)

/-- The constructor `ipv4_addr(const std::string &addr)`. -/
def ipv4_addr.of_string (addr : List Char) : Except Exn ipv4_addr :=
  match split ':' addr with
  | [_] =>
    match address_v4.from_string addr with
    | .error e => .error e
    | .ok a => .ok { ip := address_v4.to_ulong a % 2 ^ 32, port := 0 }
  | [item0, item1] =>
    match address_v4.from_string item0 with
    | .error e => .error e
    | .ok a =>
      match stoul item1 with
      | .error e => .error e
      | .ok p => .ok { ip := address_v4.to_ulong a % 2 ^ 32, port := p % 2 ^ 16 }
  | _ => .error (std_invalid_argument ("invalid format: ".toList ++ addr))

/-- The constructor `ipv4_addr()`. -/
def ipv4_addr.default : ipv4_addr := { ip := 0, port := 0 }

/-- The constructor `ipv4_addr(uint32_t ip, uint16_t port)`. -/
def ipv4_addr.of_ip_port (ip port : Nat) : ipv4_addr := { ip := ip % 2 ^ 32, port := port % 2 ^ 16 }

/-- The constructor `ipv4_addr(uint16_t port)`. -/
def ipv4_addr.of_port (port : Nat) : ipv4_addr := { ip := 0, port := port % 2 ^ 16 }

/-- The function `is_ip_unspecified`. -/
def is_ip_unspecified (addr : ipv4_addr) : Bool := addr.ip == 0

/-- The function `is_port_unspecified`. -/
def is_port_unspecified (addr : ipv4_addr) : Bool := addr.port == 0

/-! ## Stream output -/

/-- Modelled from the spec: `fprint` of core/print.hh is not under src/. It writes the
format text to the stream, each `%d` replaced by the decimal rendering of the next
argument ("each octet as a decimal 0-255 value"). -/
def fprint (os : List Char) : List Char → List Nat → List Char
  | [], _ => os
  | '%' :: 'd' :: fmt, a :: args => fprint (os ++ decimal a) fmt args
  | c :: fmt, args => fprint (os ++ [c]) fmt args

/-- The stream inserter `operator<<(std::ostream &os, ipv4_addr addr)`; the result is
the stream content afterwards. -/
def operator_shl (os : List Char) (addr : ipv4_addr) : List Char :=
  let os1 := fprint os "%d.%d.%d.%d".toList
    [(addr.ip >>> 24) &&& 0xff, (addr.ip >>> 16) &&& 0xff, (addr.ip >>> 8) &&& 0xff, addr.ip &&& 0xff]
  os1 ++ ":".toList ++ decimal addr.port

/-! ## socket_address and byte order -/

/-- Byte order of the host. -/
inductive Endian where
  | little : Endian
  | big : Endian
deriving DecidableEq, Repr

/-- The class `socket_address`: the storage of its union `u`, the 128 bytes of a
`sockaddr_storage`, by offset. -/
structure socket_address where
  u : Fin 128 → Fin 256

/-- A number cut to one byte. -/
def byte (n : Nat) : Fin 256 := ⟨n % 256, Nat.mod_lt n (by decide)⟩

/-- Read of a `uint16_t` object at offset `off`. -/
def load16 (e : Endian) (m : Fin 128 → Fin 256) (off : Fin 128) : Nat :=
  match e with
  | .little => (m off).val + 256 * (m (off + 1)).val
  | .big => 256 * (m off).val + (m (off + 1)).val

/-- Read of a `uint32_t` object at offset `off`. -/
def load32 (e : Endian) (m : Fin 128 → Fin 256) (off : Fin 128) : Nat :=
  match e with
  | .little =>
    (m off).val + 2 ^ 8 * (m (off + 1)).val + 2 ^ 16 * (m (off + 2)).val + 2 ^ 24 * (m (off + 3)).val
  | .big =>
    2 ^ 24 * (m off).val + 2 ^ 16 * (m (off + 1)).val + 2 ^ 8 * (m (off + 2)).val + (m (off + 3)).val

/-- Write of a `uint16_t` object at offset `off`. -/
def store16 (e : Endian) (m : Fin 128 → Fin 256) (off : Fin 128) (v : Nat) : Fin 128 → Fin 256 :=
  match e with
  | .little => Function.update (Function.update m off (byte v)) (off + 1) (byte (v / 2 ^ 8))
  | .big => Function.update (Function.update m off (byte (v / 2 ^ 8))) (off + 1) (byte v)

/-- Write of a `uint32_t` object at offset `off`. -/
def store32 (e : Endian) (m : Fin 128 → Fin 256) (off : Fin 128) (v : Nat) : Fin 128 → Fin 256 :=
  match e with
  | .little =>
    Function.update (Function.update (Function.update (Function.update m
      off (byte v)) (off + 1) (byte (v / 2 ^ 8))) (off + 2) (byte (v / 2 ^ 16))) (off + 3) (byte (v / 2 ^ 24))
  | .big =>
    Function.update (Function.update (Function.update (Function.update m
      off (byte (v / 2 ^ 24))) (off + 1) (byte (v / 2 ^ 16))) (off + 2) (byte (v / 2 ^ 8))) (off + 3) (byte v)

/-- Byte swap of a 16-bit value. -/
def bswap16 (x : Nat) : Nat := x % 2 ^ 8 * 2 ^ 8 + x / 2 ^ 8 % 2 ^ 8

/-- Byte swap of a 32-bit value. -/
def bswap32 (x : Nat) : Nat :=
  x % 2 ^ 8 * 2 ^ 24 + x / 2 ^ 8 % 2 ^ 8 * 2 ^ 16 + x / 2 ^ 16 % 2 ^ 8 * 2 ^ 8 + x / 2 ^ 24 % 2 ^ 8

/-- The C library's `htons`: host to network (big-endian) order. -/
def htons (e : Endian) (x : Nat) : Nat :=
  match e with
  | .little => bswap16 x
  | .big => x % 2 ^ 16

/-- The C library's `htonl`: host to network (big-endian) order. -/
def htonl (e : Endian) (x : Nat) : Nat :=
  match e with
  | .little => bswap32 x
  | .big => x % 2 ^ 32

/-- Modelled from the spec: `net::ntoh` of net/byteorder.hh is not under src/. On a
`uint16_t` lvalue it replaces the value by its conversion "from network to host byte
order"; the result is the new value of the variable. -/
def net_ntoh16 (e : Endian) (x : Nat) : Nat :=
  match e with
  | .little => bswap16 x
  | .big => x % 2 ^ 16

/-- Modelled from the spec: `net::ntoh` of net/byteorder.hh is not under src/. On a
`uint32_t` lvalue it replaces the value by its conversion "from network to host byte
order"; the result is the new value of the variable. -/
def net_ntoh32 (e : Endian) (x : Nat) : Nat :=
  match e with
  | .little => bswap32 x
  | .big => x % 2 ^ 32

/-- The constant `AF_INET` of `<sys/socket.h>`. -/
def AF_INET : Nat := 2

/-- Offset of `sin_family` in `sockaddr_in`. -/
def off_sin_family : Fin 128 := 0

/-- Offset of `sin_port` in `sockaddr_in`. -/
def off_sin_port : Fin 128 := 2

/-- Offset of `sin_addr.s_addr` in `sockaddr_in`. -/
def off_sin_addr : Fin 128 := 4

/-- The field `sa.u.in.sin_family` as the host reads it. -/
def socket_address.sin_family (e : Endian) (sa : socket_address) : Nat := load16 e sa.u off_sin_family

/-- The field `sa.u.in.sin_port` as the host reads it (the raw field value). -/
def socket_address.sin_port (e : Endian) (sa : socket_address) : Nat := load16 e sa.u off_sin_port

/-- The field `sa.u.in.sin_addr.s_addr` as the host reads it (the raw field value). -/
def socket_address.s_addr (e : Endian) (sa : socket_address) : Nat := load32 e sa.u off_sin_addr

/-- The constructor `ipv4_addr(const socket_address &sa)`. -/
def ipv4_addr.of_socket_address (e : Endian) (sa : socket_address) : ipv4_addr :=
  let ip := sa.s_addr e
  let ip := net_ntoh32 e ip
  let port := sa.sin_port e
  let port := net_ntoh16 e port
  { ip := ip, port := port }

/-- The function `make_ipv4_address`. The local `socket_address sa;` is default
initialised, so it starts with the indeterminate content `uninit`. -/
def make_ipv4_address (e : Endian) (uninit : socket_address) (addr : ipv4_addr) : socket_address :=
  let sa := uninit
  let sa : socket_address := { u := store16 e sa.u off_sin_family AF_INET }
  let sa : socket_address := { u := store16 e sa.u off_sin_port (htons e addr.port) }
  let sa : socket_address := { u := store32 e sa.u off_sin_addr (htonl e addr.ip) }
  sa


/-! ## The textual address format -/

/-- The canonical dotted quad `a.b.c.d` of the textual address format. -/
def dotted_quad (a b c d : Nat) : List Char :=
  decimal a ++ '.' :: (decimal b ++ '.' :: (decimal c ++ '.' :: decimal d))

/-- The canonical text `a.b.c.d:port` of the textual address format. -/
def address_text (a b c d port : Nat) : List Char := dotted_quad a b c d ++ ':' :: decimal port

/-- The text that produced the completed bytes `done` (latest first): each one in
canonical decimal, followed by its dot. -/
def render_done : List Nat → List Char
  | [] => []
  | x :: xs => render_done xs ++ (decimal x ++ ['.'])

/-- The text consumed by the `inet_pton4` loop, rebuilt from its state. -/
def pton_state.render (st : pton_state) : List Char :=
  render_done st.done ++ (if st.saw_digit then decimal st.cur else [])

/-- Invariant of the `inet_pton4` loop state. -/
def pton_state.wf (st : pton_state) : Prop :=
  st.octets = st.done.length + (if st.saw_digit then 1 else 0) ∧
  (st.saw_digit = false → st.cur = 0) ∧ st.done.length ≤ 3 ∧
  (∀ x ∈ st.done, x < 256) ∧ st.cur < 256

/-! ## Datagrams and channels -/

/-- How a member call made through a `std::unique_ptr` ends: it returns, it is stopped
by an assertion, or it dereferences a null pointer, which is undefined behaviour. -/
inductive Outcome (α : Type) where
  | returned (a : α) : Outcome α
  | assertion_failed : Outcome α
  | undefined_behavior : Outcome α
deriving DecidableEq, Repr

/-- The failure kinds of a channel operation. -/
inductive channel_error where
  | channel_closed : channel_error
  | backend_failure : channel_error
deriving DecidableEq, Repr

/-- Modelled from the spec: `future<T>` of core/future.hh is not under src/. It is the
"one-shot value representing the eventual success-or-failure outcome of a suspending
operation", as the caller gets it: resolved with a value, resolved with a failure, or
still pending (the caller is suspended). -/
inductive future (α : Type) where
  | ready (value : α) : future α
  | failed (ex : channel_error) : future α
  | pending : future α
deriving DecidableEq, Repr

/-- The abstract class `net::udp_datagram_impl`: the four virtual member functions of
an implementation whose object state has type `δ`. -/
structure udp_datagram_impl (Packet δ : Type) where
  get_src : δ → ipv4_addr × δ
  get_dst : δ → ipv4_addr × δ
  get_dst_port : δ → Nat × δ
  get_data : δ → Packet × δ

/-- The class `net::udp_datagram`: its member `_impl`, a `unique_ptr` that is null or
owns an implementation object (its member functions and its state). -/
structure udp_datagram (Packet δ : Type) where
  _impl : Option (udp_datagram_impl Packet δ × δ)

/-- The constructor `udp_datagram(std::unique_ptr<udp_datagram_impl>&& impl)`. -/
def udp_datagram.of_impl {Packet δ : Type} (impl : Option (udp_datagram_impl Packet δ × δ)) :
    udp_datagram Packet δ := { _impl := impl }

/-- The member `udp_datagram::get_src()`. -/
def udp_datagram.get_src {Packet δ : Type} (dg : udp_datagram Packet δ) :
    Outcome (ipv4_addr × udp_datagram Packet δ) :=
  match dg._impl with
  | none => .undefined_behavior
  | some (impl, d) => .returned ((impl.get_src d).1, { _impl := some (impl, (impl.get_src d).2) })

/-- The member `udp_datagram::get_dst()`. -/
def udp_datagram.get_dst {Packet δ : Type} (dg : udp_datagram Packet δ) :
    Outcome (ipv4_addr × udp_datagram Packet δ) :=
  match dg._impl with
  | none => .undefined_behavior
  | some (impl, d) => .returned ((impl.get_dst d).1, { _impl := some (impl, (impl.get_dst d).2) })

/-- The member `udp_datagram::get_dst_port()`. -/
def udp_datagram.get_dst_port {Packet δ : Type} (dg : udp_datagram Packet δ) :
    Outcome (Nat × udp_datagram Packet δ) :=
  match dg._impl with
  | none => .undefined_behavior
  | some (impl, d) =>
    .returned ((impl.get_dst_port d).1, { _impl := some (impl, (impl.get_dst_port d).2) })

/-- The member `udp_datagram::get_data()`. -/
def udp_datagram.get_data {Packet δ : Type} (dg : udp_datagram Packet δ) :
    Outcome (Packet × udp_datagram Packet δ) :=
  match dg._impl with
  | none => .undefined_behavior
  | some (impl, d) => .returned ((impl.get_data d).1, { _impl := some (impl, (impl.get_data d).2) })

/-- The abstract class `net::udp_channel_impl`: the five virtual member functions of a
backend whose object state has type `σ`. `is_closed` is `const`. -/
structure udp_channel_impl (Packet δ σ : Type) where
  receive : σ → future (udp_datagram Packet δ) × σ
  send_msg : ipv4_addr → List Char → σ → future Unit × σ
  send_packet : ipv4_addr → Packet → σ → future Unit × σ
  is_closed : σ → Bool
  close : σ → σ

/-- The class `net::udp_channel`: its member `_impl`, a `unique_ptr` that is null or owns
a backend object (its member functions and its state). -/
structure udp_channel (Packet δ σ : Type) where
  _impl : Option (udp_channel_impl Packet δ σ × σ)

/-- The constructor `udp_channel()`: `_impl` is null. -/
def udp_channel.default {Packet δ σ : Type} : udp_channel Packet δ σ := { _impl := none }

/-- The constructor `udp_channel(std::unique_ptr<udp_channel_impl> impl)`. -/
def udp_channel.of_impl {Packet δ σ : Type} (impl : Option (udp_channel_impl Packet δ σ × σ)) :
    udp_channel Packet δ σ := { _impl := impl }

/-- The member `udp_channel::receive()`. -/
def udp_channel.receive {Packet δ σ : Type} (ch : udp_channel Packet δ σ) :
    Outcome (future (udp_datagram Packet δ) × udp_channel Packet δ σ) :=
  match ch._impl with
  | none => .undefined_behavior
  | some (impl, s) => .returned ((impl.receive s).1, { _impl := some (impl, (impl.receive s).2) })

/-- The member `udp_channel::send(ipv4_addr dst, const char* msg)`. -/
def udp_channel.send_msg {Packet δ σ : Type} (ch : udp_channel Packet δ σ) (dst : ipv4_addr)
    (msg : List Char) : Outcome (future Unit × udp_channel Packet δ σ) :=
  match ch._impl with
  | none => .undefined_behavior
  | some (impl, s) =>
    .returned ((impl.send_msg dst msg s).1, { _impl := some (impl, (impl.send_msg dst msg s).2) })

/-- The member `udp_channel::send(ipv4_addr dst, packet p)`. -/
def udp_channel.send_packet {Packet δ σ : Type} (ch : udp_channel Packet δ σ) (dst : ipv4_addr)
    (p : Packet) : Outcome (future Unit × udp_channel Packet δ σ) :=
  match ch._impl with
  | none => .undefined_behavior
  | some (impl, s) =>
    .returned ((impl.send_packet dst p s).1, { _impl := some (impl, (impl.send_packet dst p s).2) })

/-- The member `udp_channel::is_closed() const`. -/
def udp_channel.is_closed {Packet δ σ : Type} (ch : udp_channel Packet δ σ) : Outcome Bool :=
  match ch._impl with
  | none => .undefined_behavior
  | some (impl, s) => .returned (impl.is_closed s)

/-- The member `udp_channel::close()`. -/
def udp_channel.close {Packet δ σ : Type} (ch : udp_channel Packet δ σ) :
    Outcome (udp_channel Packet δ σ) :=
  match ch._impl with
  | none => .undefined_behavior
  | some (impl, s) => .returned { _impl := some (impl, impl.close s) }

/-! ## Call sequences, a recording backend and the channel state machine -/

/-- Mapping over the value a call returns. -/
def Outcome.map {α β : Type} (f : α → β) : Outcome α → Outcome β
  | .returned a => .returned (f a)
  | .assertion_failed => .assertion_failed
  | .undefined_behavior => .undefined_behavior

/-- One call of a channel operation, with its arguments. -/
inductive Call (Packet : Type) where
  | receive : Call Packet
  | send_msg (dst : ipv4_addr) (msg : List Char) : Call Packet
  | send_packet (dst : ipv4_addr) (p : Packet) : Call Packet
  | is_closed : Call Packet
  | close : Call Packet
deriving DecidableEq, Repr

/-- What a call of a channel operation hands back. -/
inductive Reply (Packet δ : Type) where
  | datagram (f : future (udp_datagram Packet δ)) : Reply Packet δ
  | completion (f : future Unit) : Reply Packet δ
  | flag (b : Bool) : Reply Packet δ
  | void : Reply Packet δ

/-- One call on the facade `udp_channel`. -/
def udp_channel.perform {Packet δ σ : Type} (ch : udp_channel Packet δ σ) :
    Call Packet → Outcome (Reply Packet δ × udp_channel Packet δ σ)
  | .receive => (ch.receive).map (fun r => (Reply.datagram r.1, r.2))
  | .send_msg dst msg => (ch.send_msg dst msg).map (fun r => (Reply.completion r.1, r.2))
  | .send_packet dst p => (ch.send_packet dst p).map (fun r => (Reply.completion r.1, r.2))
  | .is_closed => (ch.is_closed).map (fun b => (Reply.flag b, ch))
  | .close => (ch.close).map (fun c => (Reply.void, c))

/-- A sequence of calls on the facade `udp_channel`, one after the other. -/
def udp_channel.run {Packet δ σ : Type} :
    udp_channel Packet δ σ → List (Call Packet) →
      Outcome (List (Reply Packet δ) × udp_channel Packet δ σ)
  | ch, [] => .returned ([], ch)
  | ch, c :: cs =>
    match ch.perform c with
    | .returned (r, ch1) => (udp_channel.run ch1 cs).map (fun rs => (r :: rs.1, rs.2))
    | .assertion_failed => .assertion_failed
    | .undefined_behavior => .undefined_behavior

/-- A backend that behaves as the backend `b` and keeps a record of every call of a
non-`const` operation made to it, in order. -/
def recording {Packet δ σ : Type} (b : udp_channel_impl Packet δ σ) :
    udp_channel_impl Packet δ (σ × List (Call Packet)) where
  receive := fun s => ((b.receive s.1).1, ((b.receive s.1).2, s.2 ++ [Call.receive]))
  send_msg := fun dst msg s =>
    ((b.send_msg dst msg s.1).1, ((b.send_msg dst msg s.1).2, s.2 ++ [Call.send_msg dst msg]))
  send_packet := fun dst p s =>
    ((b.send_packet dst p s.1).1, ((b.send_packet dst p s.1).2, s.2 ++ [Call.send_packet dst p]))
  is_closed := fun s => b.is_closed s.1
  close := fun s => (b.close s.1, s.2 ++ [Call.close])

/-- State of the channel state machine of the spec: `Open` or `Closed`, the inbound
datagrams not yet received and the payloads handed to the outbound path. -/
structure channel_state (Packet δ : Type) where
  closed : Bool
  inbound : List (udp_datagram Packet δ)
  outbound : List (ipv4_addr × (List Char ⊕ Packet))

/-- Modelled from the spec: no implementation of `udp_channel_impl` is under src/. This
is the channel contract of the spec: `receive` resolves with the next inbound datagram
and suspends when there is none; `send` resolves with success once the payload is
handed to the outbound path and with a failure when the destination is invalid;
`close` is the only transition, `Open -> Closed`; `send` and `receive` invoked in
`Closed` "fail immediately with `ChannelClosed`". -/
def spec_channel_impl {Packet δ : Type} (valid : ipv4_addr → Bool) :
    udp_channel_impl Packet δ (channel_state Packet δ) where
  receive := fun s =>
    if s.closed then (future.failed channel_error.channel_closed, s)
    else
      match s.inbound with
      | [] => (future.pending, s)
      | d :: ds => (future.ready d, { s with inbound := ds })
  send_msg := fun dst msg s =>
    if s.closed then (future.failed channel_error.channel_closed, s)
    else if valid dst then (future.ready (), { s with outbound := s.outbound ++ [(dst, Sum.inl msg)] })
    else (future.failed channel_error.backend_failure, s)
  send_packet := fun dst p s =>
    if s.closed then (future.failed channel_error.channel_closed, s)
    else if valid dst then (future.ready (), { s with outbound := s.outbound ++ [(dst, Sum.inr p)] })
    else (future.failed channel_error.backend_failure, s)
  is_closed := fun s => s.closed
  close := fun s => { s with closed := true }

/-- What each call hands back on a closed channel, by the spec: `send` and `receive`
fail with `ChannelClosed`, `is_closed` is true, `close` just returns. -/
def closed_reply {Packet δ : Type} : Call Packet → Reply Packet δ
  | .receive => Reply.datagram (future.failed channel_error.channel_closed)
  | .send_msg _ _ => Reply.completion (future.failed channel_error.channel_closed)
  | .send_packet _ _ => Reply.completion (future.failed channel_error.channel_closed)
  | .is_closed => Reply.flag true
  | .close => Reply.void

/-- State of a datagram implementation that just stores its addresses and payload. -/
structure datagram_record (Packet : Type) where
  src : ipv4_addr
  dst : ipv4_addr
  data : Packet

/-- A datagram implementation for test doubles: it answers from its record. -/
def record_datagram_impl {Packet : Type} : udp_datagram_impl Packet (datagram_record Packet) where
  get_src := fun d => (d.src, d)
  get_dst := fun d => (d.dst, d)
  get_dst_port := fun d => (d.dst.port, d)
  get_data := fun d => (d.data, d)

/-! ## Decimal rendering -/

theorem toDigitsCore_fuel (f : Nat) : ∀ n ds, n < f →
    Nat.toDigitsCore 10 f n ds = Nat.toDigitsCore 10 (n + 1) n [] ++ ds := by
  induction f using Nat.strong_induction_on with
  | _ f ih =>
    intro n ds hn
    cases f with
    | zero => omega
    | succ f =>
      by_cases h0 : n / 10 = 0
      · simp [Nat.toDigitsCore, h0]
      · have hm : n / 10 < n := by omega
        have e1 : Nat.toDigitsCore 10 (f + 1) n ds =
            Nat.toDigitsCore 10 f (n / 10) (Nat.digitChar (n % 10) :: ds) := by
          simp [Nat.toDigitsCore, h0]
        have e2 : Nat.toDigitsCore 10 (n + 1) n [] =
            Nat.toDigitsCore 10 n (n / 10) [Nat.digitChar (n % 10)] := by
          simp [Nat.toDigitsCore, h0]
        rw [e1, e2, ih f (by omega) (n / 10) _ (by omega), ih n (by omega) (n / 10) _ hm]
        simp

theorem decimal_lt (n : Nat) (h : n < 10) : decimal n = [Nat.digitChar n] := by
  have h0 : n / 10 = 0 := by omega
  have h1 : n % 10 = n := by omega
  simp [decimal, Nat.toDigits, Nat.toDigitsCore, h0, h1]

theorem decimal_ge (n : Nat) (h : 10 ≤ n) :
    decimal n = decimal (n / 10) ++ [Nat.digitChar (n % 10)] := by
  have h0 : ¬ n / 10 = 0 := by omega
  have e : Nat.toDigitsCore 10 (n + 1) n [] =
      Nat.toDigitsCore 10 n (n / 10) [Nat.digitChar (n % 10)] := by
    simp [Nat.toDigitsCore, h0]
  simp only [decimal, Nat.toDigits]
  rw [e, toDigitsCore_fuel n (n / 10) _ (by omega)]

theorem digitChar_toNat (d : Nat) (h : d < 10) : (Nat.digitChar d).toNat = 48 + d := by
  interval_cases d <;> rfl

theorem isdigit_iff (c : Char) : isdigit c = true ↔ 48 ≤ c.toNat ∧ c.toNat ≤ 57 := by
  simp [isdigit]

theorem isdigit_digitChar (d : Nat) (h : d < 10) : isdigit (Nat.digitChar d) = true := by
  rw [isdigit_iff, digitChar_toNat d h]; omega

theorem digitVal_digitChar (d : Nat) (h : d < 10) : digitVal (Nat.digitChar d) = d := by
  simp [digitVal, digitChar_toNat d h]

theorem digitVal_lt (c : Char) (h : isdigit c = true) : digitVal c < 10 := by
  rw [isdigit_iff] at h
  unfold digitVal
  omega

theorem char_eq_of_toNat (c d : Char) (h : c.toNat = d.toNat) : c = d := by
  apply Char.ext
  apply UInt32.ext
  exact h

theorem digitChar_digitVal (c : Char) (h : isdigit c = true) : Nat.digitChar (digitVal c) = c := by
  apply char_eq_of_toNat
  rw [digitChar_toNat _ (digitVal_lt c h)]
  rw [isdigit_iff] at h
  unfold digitVal
  omega

theorem decimal_isdigit (n : Nat) : ∀ c ∈ decimal n, isdigit c = true := by
  induction n using Nat.strong_induction_on with
  | _ n ih =>
    by_cases h : n < 10
    · rw [decimal_lt n h]
      intro c hc
      simp only [List.mem_singleton] at hc
      subst hc
      exact isdigit_digitChar n h
    · rw [decimal_ge n (by omega)]
      intro c hc
      rcases List.mem_append.mp hc with hc | hc
      · exact ih (n / 10) (by omega) c hc
      · simp only [List.mem_singleton] at hc
        subst hc
        exact isdigit_digitChar _ (Nat.mod_lt n (by decide))

theorem digitsVal_append (acc : Nat) (xs : List Char) (c : Char) :
    digitsVal acc (xs ++ [c]) = digitsVal acc xs * 10 + digitVal c := by
  simp [digitsVal, List.foldl_append]

theorem digitsVal_decimal (n : Nat) : digitsVal 0 (decimal n) = n := by
  induction n using Nat.strong_induction_on with
  | _ n ih =>
    by_cases h : n < 10
    · rw [decimal_lt n h]
      simp [digitsVal, digitVal_digitChar n h]
    · rw [decimal_ge n (by omega), digitsVal_append, ih (n / 10) (by omega),
        digitVal_digitChar _ (Nat.mod_lt n (by decide))]
      omega

/-- The first character of a decimal rendering: a digit, and `0` only for zero itself. -/
theorem decimal_head (n : Nat) :
    ∃ c r, decimal n = c :: r ∧ isdigit c = true ∧ (digitVal c = 0 → n = 0 ∧ r = []) := by
  induction n using Nat.strong_induction_on with
  | _ n ih =>
    by_cases h : n < 10
    · refine ⟨Nat.digitChar n, [], decimal_lt n h, isdigit_digitChar n h, ?_⟩
      rw [digitVal_digitChar n h]
      intro h0
      exact ⟨h0, rfl⟩
    · obtain ⟨c, r, hc, hd, hz⟩ := ih (n / 10) (by omega)
      refine ⟨c, r ++ [Nat.digitChar (n % 10)], ?_, hd, ?_⟩
      · rw [decimal_ge n (by omega), hc]; rfl
      · intro h0
        have := (hz h0).1
        omega

theorem decimal_ne_nil (n : Nat) : decimal n ≠ [] := by
  obtain ⟨c, r, hc, _, _⟩ := decimal_head n
  simp [hc]

theorem isdigit_toNat_ne (c : Char) (k : Nat) (h : isdigit c = true) (hk : k < 48 ∨ 57 < k) :
    c.toNat ≠ k := by
  rw [isdigit_iff] at h
  omega

theorem isdigit_ne (c d : Char) (h : isdigit c = true) (hd : isdigit d = false) : c ≠ d := by
  intro hcd
  subst hcd
  rw [h] at hd
  exact Bool.noConfusion hd

theorem decimal_not_mem (n : Nat) (d : Char) (hd : isdigit d = false) : d ∉ decimal n := by
  intro hm
  have := decimal_isdigit n d hm
  rw [this] at hd
  exact Bool.noConfusion hd

/-! ## Splitting and C strings -/

theorem split_ne_nil (sep : Char) (s : List Char) : split sep s ≠ [] := by
  cases s with
  | nil => simp [split]
  | cons c cs =>
    unfold split
    split_ifs
    · simp
    · split <;> simp

theorem split_length (sep : Char) (s : List Char) :
    (split sep s).length = s.count sep + 1 := by
  induction s with
  | nil => simp [split]
  | cons c cs ih =>
    unfold split
    by_cases h : c = sep
    · subst h
      simp [ih]
    · have hne : (c == sep) = false := by simpa using h
      rw [if_neg h, List.count_cons, hne]
      cases hs : split sep cs with
      | nil => exact absurd hs (split_ne_nil sep cs)
      | cons x xs =>
        rw [hs] at ih
        simpa using ih

theorem split_not_mem (sep : Char) (s : List Char) (h : sep ∉ s) : split sep s = [s] := by
  induction s with
  | nil => simp [split]
  | cons c cs ih =>
    have hc : ¬ c = sep := fun e => h (by simp [e])
    have hcs : sep ∉ cs := fun e => h (List.mem_cons_of_mem _ e)
    unfold split
    rw [if_neg hc, ih hcs]

theorem split_append (sep : Char) (xs ys : List Char) (h : sep ∉ xs) :
    split sep (xs ++ sep :: ys) = xs :: split sep ys := by
  induction xs with
  | nil => simp [split]
  | cons c cs ih =>
    have hc : ¬ c = sep := fun e => h (by simp [e])
    have hcs : sep ∉ cs := fun e => h (List.mem_cons_of_mem _ e)
    rw [List.cons_append, split, if_neg hc, ih hcs]

theorem c_str_eq (s : List Char) (h : ∀ c ∈ s, c.toNat ≠ 0) : c_str s = s := by
  unfold c_str
  rw [List.takeWhile_eq_self_iff]
  intro c hc
  simpa using h c hc

/-! ## inet_pton4 accepts canonical dotted quads -/

theorem loop_append (xs ys : List Char) : ∀ st : pton_state,
    inet_pton4_loop st (xs ++ ys) =
      match inet_pton4_loop st xs with
      | none => none
      | some st1 => inet_pton4_loop st1 ys := by
  induction xs with
  | nil => intro st; simp [inet_pton4_loop]
  | cons c cs ih =>
    intro st
    simp only [List.cons_append, inet_pton4_loop]
    cases inet_pton4_step st c with
    | none => rfl
    | some st1 => exact ih st1

theorem step_digit_first (k : Nat) (done : List Nat) (c : Char) (hc : isdigit c = true)
    (hk : k < 4) :
    inet_pton4_step { saw_digit := false, octets := k, done := done, cur := 0 } c =
      some { saw_digit := true, octets := k + 1, done := done, cur := digitVal c } := by
  have := digitVal_lt c hc
  have h1 : ¬ 255 < digitVal c := by omega
  have h2 : ¬ 4 < k + 1 := by omega
  simp [inet_pton4_step, hc, h1, h2]

theorem step_digit_next (k : Nat) (done : List Nat) (m : Nat) (c : Char)
    (hc : isdigit c = true) (hm : m ≠ 0) (hn : m * 10 + digitVal c ≤ 255) :
    inet_pton4_step { saw_digit := true, octets := k, done := done, cur := m } c =
      some { saw_digit := true, octets := k, done := done, cur := m * 10 + digitVal c } := by
  have h1 : ¬ 255 < m * 10 + digitVal c := by omega
  simp [inet_pton4_step, hc, hm, h1]

theorem step_dot (k : Nat) (done : List Nat) (m : Nat) (hk : k ≠ 4) :
    inet_pton4_step { saw_digit := true, octets := k, done := done, cur := m } '.' =
      some { saw_digit := false, octets := k, done := m :: done, cur := 0 } := by
  have h : isdigit '.' = false := by decide
  simp [inet_pton4_step, h, hk]

theorem loop_decimal (k : Nat) (done : List Nat) (hk : k < 4) (n : Nat) (hn : n ≤ 255) :
    inet_pton4_loop { saw_digit := false, octets := k, done := done, cur := 0 } (decimal n) =
      some { saw_digit := true, octets := k + 1, done := done, cur := n } := by
  induction n using Nat.strong_induction_on with
  | _ n ih =>
    by_cases h : n < 10
    · rw [decimal_lt n h]
      simp only [inet_pton4_loop]
      rw [step_digit_first k done _ (isdigit_digitChar n h) hk, digitVal_digitChar n h]
    · have hd := Nat.mod_lt n (show 0 < 10 by decide)
      rw [decimal_ge n (by omega), loop_append, ih (n / 10) (by omega) (by omega)]
      simp only [inet_pton4_loop]
      rw [step_digit_next _ _ _ _ (isdigit_digitChar _ hd) (by omega)
        (by rw [digitVal_digitChar _ hd]; omega), digitVal_digitChar _ hd]
      have e : n / 10 * 10 + n % 10 = n := by omega
      rw [e]

theorem loop_decimal_dot (k : Nat) (done : List Nat) (hk : k < 3) (n : Nat) (hn : n ≤ 255)
    (rest : List Char) :
    inet_pton4_loop { saw_digit := false, octets := k, done := done, cur := 0 }
        (decimal n ++ '.' :: rest) =
      inet_pton4_loop { saw_digit := false, octets := k + 1, done := n :: done, cur := 0 } rest := by
  rw [loop_append, loop_decimal k done (by omega) n hn]
  simp only [inet_pton4_loop]
  rw [step_dot (k + 1) done n (by omega)]

theorem inet_pton4_dotted_quad (a b c d : Nat) (ha : a < 256) (hb : b < 256) (hc : c < 256)
    (hd : d < 256) : inet_pton4 (dotted_quad a b c d) = some [a, b, c, d] := by
  unfold inet_pton4 dotted_quad
  rw [loop_decimal_dot 0 [] (by decide) a (by omega),
    loop_decimal_dot 1 [a] (by decide) b (by omega),
    loop_decimal_dot 2 [b, a] (by decide) c (by omega),
    loop_decimal 3 [c, b, a] (by decide) d (by omega)]
  simp

theorem dotted_quad_isdigit_or_dot (a b c d : Nat) :
    ∀ x ∈ dotted_quad a b c d, isdigit x = true ∨ x = '.' := by
  intro x hx
  simp only [dotted_quad, List.mem_append, List.mem_cons] at hx
  rcases hx with h | h | h | h | h | h | h
  · exact Or.inl (decimal_isdigit a x h)
  · exact Or.inr h
  · exact Or.inl (decimal_isdigit b x h)
  · exact Or.inr h
  · exact Or.inl (decimal_isdigit c x h)
  · exact Or.inr h
  · exact Or.inl (decimal_isdigit d x h)

theorem c_str_dotted_quad (a b c d : Nat) : c_str (dotted_quad a b c d) = dotted_quad a b c d := by
  apply c_str_eq
  intro x hx
  rcases dotted_quad_isdigit_or_dot a b c d x hx with h | h
  · exact isdigit_toNat_ne x 0 h (Or.inl (by decide))
  · subst h; decide

theorem colon_not_mem_dotted_quad (a b c d : Nat) : ':' ∉ dotted_quad a b c d := by
  intro hx
  rcases dotted_quad_isdigit_or_dot a b c d ':' hx with h | h
  · exact absurd h (by decide)
  · exact absurd h (by decide)

theorem from_string_dotted_quad (a b c d : Nat) (ha : a < 256) (hb : b < 256) (hc : c < 256)
    (hd : d < 256) : address_v4.from_string (dotted_quad a b c d) = .ok [a, b, c, d] := by
  unfold address_v4.from_string
  rw [c_str_dotted_quad, inet_pton4_dotted_quad a b c d ha hb hc hd]

theorem to_ulong_quad (a b c d : Nat) :
    address_v4.to_ulong [a, b, c, d] = a * 2 ^ 24 + b * 2 ^ 16 + c * 2 ^ 8 + d := by
  simp only [address_v4.to_ulong, List.foldl]
  omega

/-! ## std::stoul on decimal text -/

theorem takeWhile_isdigit_decimal (n : Nat) : (decimal n).takeWhile isdigit = decimal n := by
  rw [List.takeWhile_eq_self_iff]
  exact decimal_isdigit n

theorem c_str_decimal (n : Nat) : c_str (decimal n) = decimal n := by
  apply c_str_eq
  intro x hx
  exact isdigit_toNat_ne x 0 (decimal_isdigit n x hx) (Or.inl (by decide))

theorem strtoul_decimal (n : Nat) (hn : n ≤ ULONG_MAX) : strtoul (decimal n) = some (n, false) := by
  obtain ⟨c, r, hc, hd, _⟩ := decimal_head n
  have hsp : isspace c = false := by
    rw [isdigit_iff] at hd
    simp only [isspace, Bool.or_eq_false_iff, Bool.and_eq_false_iff, decide_eq_false_iff_not]
    omega
  have hm : ¬ c = '-' := isdigit_ne c '-' hd (by decide)
  have hp : ¬ c = '+' := isdigit_ne c '+' hd (by decide)
  have e1 : (decimal n).dropWhile isspace = decimal n := by
    rw [hc, List.dropWhile_cons, hsp]; rfl
  have e2 : strtoul_sign (decimal n) = (false, decimal n) := by
    rw [hc]; simp [strtoul_sign, hm, hp]
  unfold strtoul
  simp only [e1, e2, takeWhile_isdigit_decimal, digitsVal_decimal]
  have h3 : ¬ n > ULONG_MAX := by omega
  simp [decimal_ne_nil n, h3]

theorem stoul_decimal (n : Nat) (hn : n ≤ ULONG_MAX) : stoul (decimal n) = .ok n := by
  unfold stoul
  rw [c_str_decimal, strtoul_decimal n hn]
  simp

/-! ## Parsing canonical text, formatting -/

theorem of_string_dotted_quad_eq (a b c d : Nat) (ha : a < 256) (hb : b < 256) (hc : c < 256)
    (hd : d < 256) :
    ipv4_addr.of_string (dotted_quad a b c d) =
      .ok { ip := a * 2 ^ 24 + b * 2 ^ 16 + c * 2 ^ 8 + d, port := 0 } := by
  unfold ipv4_addr.of_string
  rw [split_not_mem ':' _ (colon_not_mem_dotted_quad a b c d)]
  simp only [from_string_dotted_quad a b c d ha hb hc hd, to_ulong_quad]
  have e : (a * 2 ^ 24 + b * 2 ^ 16 + c * 2 ^ 8 + d) % 2 ^ 32 =
      a * 2 ^ 24 + b * 2 ^ 16 + c * 2 ^ 8 + d := by omega
  rw [e]

theorem of_string_address_text_eq (a b c d p : Nat) (ha : a < 256) (hb : b < 256) (hc : c < 256)
    (hd : d < 256) (hp : p < 65536) :
    ipv4_addr.of_string (address_text a b c d p) =
      .ok { ip := a * 2 ^ 24 + b * 2 ^ 16 + c * 2 ^ 8 + d, port := p } := by
  unfold ipv4_addr.of_string address_text
  rw [split_append ':' _ _ (colon_not_mem_dotted_quad a b c d),
    split_not_mem ':' _ (decimal_not_mem p ':' (by decide))]
  have hu : p ≤ ULONG_MAX := by unfold ULONG_MAX; omega
  simp only [from_string_dotted_quad a b c d ha hb hc hd, to_ulong_quad, stoul_decimal p hu]
  have e : (a * 2 ^ 24 + b * 2 ^ 16 + c * 2 ^ 8 + d) % 2 ^ 32 =
      a * 2 ^ 24 + b * 2 ^ 16 + c * 2 ^ 8 + d := by omega
  have e2 : p % 2 ^ 16 = p := by omega
  rw [e, e2]

theorem and_255 (x : Nat) : x &&& 255 = x % 256 :=
  Nat.and_pow_two_sub_one_eq_mod x 8

theorem operator_shl_eq (os : List Char) (addr : ipv4_addr) :
    operator_shl os addr =
      os ++ address_text (addr.ip / 2 ^ 24 % 256) (addr.ip / 2 ^ 16 % 256) (addr.ip / 2 ^ 8 % 256)
        (addr.ip % 256) addr.port := by
  simp [operator_shl, fprint, address_text, dotted_quad, Nat.shiftRight_eq_div_pow, and_255]

theorem decimal_eq_toString (n : Nat) : decimal n = (toString n).toList := rfl

/-! ## Byte order -/

theorem pack2 (p q : Nat) (hp : p < 256) (hq : q < 256) :
    (p * 2 ^ 8 + q) % 2 ^ 8 = q ∧ (p * 2 ^ 8 + q) / 2 ^ 8 % 2 ^ 8 = p := by
  constructor <;> omega

theorem pack4 (a b c d : Nat) (ha : a < 256) (hb : b < 256) (hc : c < 256) (hd : d < 256) :
    (a * 2 ^ 24 + b * 2 ^ 16 + c * 2 ^ 8 + d) % 2 ^ 8 = d ∧
    (a * 2 ^ 24 + b * 2 ^ 16 + c * 2 ^ 8 + d) / 2 ^ 8 % 2 ^ 8 = c ∧
    (a * 2 ^ 24 + b * 2 ^ 16 + c * 2 ^ 8 + d) / 2 ^ 16 % 2 ^ 8 = b ∧
    (a * 2 ^ 24 + b * 2 ^ 16 + c * 2 ^ 8 + d) / 2 ^ 24 % 2 ^ 8 = a := by
  refine ⟨?_, ?_, ?_, ?_⟩ <;> omega

theorem bswap16_bytes (x : Nat) :
    bswap16 x % 2 ^ 8 = x / 2 ^ 8 % 2 ^ 8 ∧ bswap16 x / 2 ^ 8 % 2 ^ 8 = x % 2 ^ 8 :=
  pack2 _ _ (Nat.mod_lt _ (by decide)) (Nat.mod_lt _ (by decide))

theorem bswap32_bytes (x : Nat) :
    bswap32 x % 2 ^ 8 = x / 2 ^ 24 % 2 ^ 8 ∧ bswap32 x / 2 ^ 8 % 2 ^ 8 = x / 2 ^ 16 % 2 ^ 8 ∧
    bswap32 x / 2 ^ 16 % 2 ^ 8 = x / 2 ^ 8 % 2 ^ 8 ∧ bswap32 x / 2 ^ 24 % 2 ^ 8 = x % 2 ^ 8 :=
  pack4 _ _ _ _ (Nat.mod_lt _ (by decide)) (Nat.mod_lt _ (by decide)) (Nat.mod_lt _ (by decide))
    (Nat.mod_lt _ (by decide))

theorem byte_eq (m n : Nat) (h : m % 2 ^ 8 = n % 2 ^ 8) : byte m = byte n := by
  apply Fin.ext
  simpa [byte] using h

/-- Storing `htons x` lays the two bytes of `x` down high byte first, on either host. -/
theorem store16_htons (e : Endian) (m : Fin 128 → Fin 256) (off : Fin 128) (x : Nat) :
    store16 e m off (htons e x) =
      Function.update (Function.update m off (byte (x / 2 ^ 8))) (off + 1) (byte x) := by
  cases e
  · simp only [store16, htons]
    rw [byte_eq (bswap16 x) (x / 2 ^ 8) (by rw [(bswap16_bytes x).1]),
      byte_eq (bswap16 x / 2 ^ 8) x (by rw [(bswap16_bytes x).2])]
  · simp only [store16, htons]
    rw [byte_eq (x % 2 ^ 16 / 2 ^ 8) (x / 2 ^ 8) (by omega), byte_eq (x % 2 ^ 16) x (by omega)]

/-- Storing `htonl x` lays the four bytes of `x` down most significant first, on either host. -/
theorem store32_htonl (e : Endian) (m : Fin 128 → Fin 256) (off : Fin 128) (x : Nat) :
    store32 e m off (htonl e x) =
      Function.update (Function.update (Function.update (Function.update m
        off (byte (x / 2 ^ 24))) (off + 1) (byte (x / 2 ^ 16))) (off + 2) (byte (x / 2 ^ 8)))
        (off + 3) (byte x) := by
  obtain ⟨h0, h1, h2, h3⟩ := bswap32_bytes x
  cases e
  · simp only [store32, htonl]
    rw [byte_eq (bswap32 x) (x / 2 ^ 24) (by rw [h0]),
      byte_eq (bswap32 x / 2 ^ 8) (x / 2 ^ 16) (by rw [h1]),
      byte_eq (bswap32 x / 2 ^ 16) (x / 2 ^ 8) (by rw [h2]),
      byte_eq (bswap32 x / 2 ^ 24) x (by rw [h3])]
  · simp only [store32, htonl]
    rw [byte_eq (x % 2 ^ 32 / 2 ^ 24) (x / 2 ^ 24) (by omega),
      byte_eq (x % 2 ^ 32 / 2 ^ 16) (x / 2 ^ 16) (by omega),
      byte_eq (x % 2 ^ 32 / 2 ^ 8) (x / 2 ^ 8) (by omega),
      byte_eq (x % 2 ^ 32) x (by omega)]

/-- Reading a 16-bit field and converting it with `ntoh` gives the big-endian value of
its two bytes, on either host. -/
theorem ntoh16_load16 (e : Endian) (m : Fin 128 → Fin 256) (off : Fin 128) :
    net_ntoh16 e (load16 e m off) = (m off).val * 2 ^ 8 + (m (off + 1)).val := by
  have h0 := (m off).isLt
  have h1 := (m (off + 1)).isLt
  cases e
  · simp only [net_ntoh16, load16, bswap16]
    generalize (m off).val = p at *
    generalize (m (off + 1)).val = q at *
    omega
  · simp only [net_ntoh16, load16]
    omega

/-- Reading a 32-bit field and converting it with `ntoh` gives the big-endian value of
its four bytes, on either host. -/
theorem ntoh32_load32 (e : Endian) (m : Fin 128 → Fin 256) (off : Fin 128) :
    net_ntoh32 e (load32 e m off) =
      (m off).val * 2 ^ 24 + (m (off + 1)).val * 2 ^ 16 + (m (off + 2)).val * 2 ^ 8 +
        (m (off + 3)).val := by
  have h0 := (m off).isLt
  have h1 := (m (off + 1)).isLt
  have h2 := (m (off + 2)).isLt
  have h3 := (m (off + 3)).isLt
  cases e
  · simp only [net_ntoh32, load32, bswap32]
    generalize (m off).val = p at *
    generalize (m (off + 1)).val = q at *
    generalize (m (off + 2)).val = r at *
    generalize (m (off + 3)).val = t at *
    omega
  · simp only [net_ntoh32, load32]
    omega

theorem make_ipv4_address_eq (e : Endian) (uninit : socket_address) (addr : ipv4_addr) :
    (make_ipv4_address e uninit addr).u =
      Function.update (Function.update (Function.update (Function.update
        (Function.update (Function.update (store16 e uninit.u 0 AF_INET)
        2 (byte (addr.port / 2 ^ 8))) 3 (byte addr.port))
        4 (byte (addr.ip / 2 ^ 24))) 5 (byte (addr.ip / 2 ^ 16))) 6 (byte (addr.ip / 2 ^ 8)))
        7 (byte addr.ip) := by
  simp only [make_ipv4_address, store16_htons, store32_htonl, off_sin_family, off_sin_port,
    off_sin_addr]
  rfl

theorem make_port_bytes (e : Endian) (uninit : socket_address) (addr : ipv4_addr) :
    ((make_ipv4_address e uninit addr).u 2).val = addr.port / 2 ^ 8 % 256 ∧
    ((make_ipv4_address e uninit addr).u 3).val = addr.port % 256 := by
  rw [make_ipv4_address_eq]
  simp [Function.update_apply, byte]

theorem make_addr_bytes (e : Endian) (uninit : socket_address) (addr : ipv4_addr) :
    ((make_ipv4_address e uninit addr).u 4).val = addr.ip / 2 ^ 24 % 256 ∧
    ((make_ipv4_address e uninit addr).u 5).val = addr.ip / 2 ^ 16 % 256 ∧
    ((make_ipv4_address e uninit addr).u 6).val = addr.ip / 2 ^ 8 % 256 ∧
    ((make_ipv4_address e uninit addr).u 7).val = addr.ip % 256 := by
  rw [make_ipv4_address_eq]
  simp [Function.update_apply, byte]

theorem make_family (e : Endian) (uninit : socket_address) (addr : ipv4_addr) :
    (make_ipv4_address e uninit addr).sin_family e = AF_INET := by
  rw [socket_address.sin_family, make_ipv4_address_eq]
  cases e <;> simp [load16, store16, byte, off_sin_family, Function.update_apply, AF_INET]

theorem of_socket_address_bytes (e : Endian) (sa : socket_address) :
    ipv4_addr.of_socket_address e sa =
      { ip := (sa.u 4).val * 2 ^ 24 + (sa.u 5).val * 2 ^ 16 + (sa.u 6).val * 2 ^ 8 + (sa.u 7).val,
        port := (sa.u 2).val * 2 ^ 8 + (sa.u 3).val } := by
  simp only [ipv4_addr.of_socket_address, socket_address.s_addr, socket_address.sin_port,
    ntoh16_load16, ntoh32_load32, off_sin_port, off_sin_addr]
  rfl

/-! ## inet_pton4 accepts nothing but canonical dotted quads -/

theorem decimal_single (c : Char) (hc : isdigit c = true) : decimal (digitVal c) = [c] := by
  rw [decimal_lt _ (digitVal_lt c hc), digitChar_digitVal c hc]

theorem decimal_snoc (m : Nat) (c : Char) (hm : m ≠ 0) (hc : isdigit c = true) :
    decimal (m * 10 + digitVal c) = decimal m ++ [c] := by
  have hv := digitVal_lt c hc
  have e1 : (m * 10 + digitVal c) / 10 = m := by omega
  have e2 : (m * 10 + digitVal c) % 10 = digitVal c := by omega
  rw [decimal_ge _ (by omega), e1, e2, digitChar_digitVal c hc]

theorem step_inv (st st1 : pton_state) (ch : Char) (hw : st.wf)
    (h : inet_pton4_step st ch = some st1) : st1.wf ∧ st1.render = st.render ++ [ch] := by
  obtain ⟨saw, octets, done, cur⟩ := st
  obtain ⟨h1, h2, h3, h4, h5⟩ := hw
  simp only at h1 h2 h3 h4 h5
  unfold inet_pton4_step at h
  by_cases hd : isdigit ch = true
  · simp only [hd, if_true] at h
    cases saw with
    | false =>
      have hc := h2 rfl
      subst hc
      simp only [Bool.false_eq_true, false_and, if_false, Nat.zero_mul, Nat.zero_add] at h
      split_ifs at h with ha hb
      cases h
      simp only [if_false, Bool.false_eq_true, Nat.add_zero] at h1
      refine ⟨⟨?_, ?_, h3, h4, ?_⟩, ?_⟩
      · simp [h1]
      · intro hf; cases hf
      · simp only; omega
      · simp [pton_state.render, decimal_single ch hd]
    | true =>
      simp only [true_and, if_true] at h
      split_ifs at h with ha hb
      cases h
      refine ⟨⟨?_, ?_, h3, h4, ?_⟩, ?_⟩
      · simpa using h1
      · intro hf; cases hf
      · simp only; omega
      · simp [pton_state.render, decimal_snoc cur ch ha hd]
  · rw [if_neg hd] at h
    split_ifs at h with ha hb
    cases h
    obtain ⟨hdot, hsaw⟩ := ha
    have hsaw1 : saw = true := hsaw
    have hb1 : ¬ octets = 4 := hb
    subst hsaw1
    subst hdot
    simp only [if_true] at h1
    refine ⟨⟨?_, ?_, ?_, ?_, ?_⟩, ?_⟩
    · simp only [List.length_cons, Bool.false_eq_true, if_false]; omega
    · intro _; rfl
    · simp only [List.length_cons]; omega
    · intro x hx
      rcases List.mem_cons.mp hx with hx | hx
      · rw [hx]; exact h5
      · exact h4 x hx
    · simp
    · simp [pton_state.render, render_done]

theorem loop_inv (src : List Char) : ∀ st st1 : pton_state, st.wf →
    inet_pton4_loop st src = some st1 → st1.wf ∧ st1.render = st.render ++ src := by
  induction src with
  | nil =>
    intro st st1 hw h
    simp only [inet_pton4_loop, Option.some.injEq] at h
    subst h
    exact ⟨hw, by simp⟩
  | cons ch src ih =>
    intro st st1 hw h
    simp only [inet_pton4_loop] at h
    cases hs : inet_pton4_step st ch with
    | none => rw [hs] at h; cases h
    | some st2 =>
      rw [hs] at h
      obtain ⟨hw2, hr2⟩ := step_inv st st2 ch hw hs
      obtain ⟨hw1, hr1⟩ := ih st2 st1 hw2 h
      exact ⟨hw1, by rw [hr1, hr2]; simp⟩

/-- Whatever `inet_pton4` accepts is the canonical dotted quad of the bytes it returns. -/
theorem inet_pton4_sound (src : List Char) (bytes : List Nat) (h : inet_pton4 src = some bytes) :
    ∃ a b c d, a < 256 ∧ b < 256 ∧ c < 256 ∧ d < 256 ∧ bytes = [a, b, c, d] ∧
      src = dotted_quad a b c d := by
  unfold inet_pton4 at h
  cases hl : inet_pton4_loop { saw_digit := false, octets := 0, done := [], cur := 0 } src with
  | none => rw [hl] at h; cases h
  | some st =>
    rw [hl] at h
    simp only at h
    split_ifs at h with ho
    cases h
    have hw0 : pton_state.wf { saw_digit := false, octets := 0, done := [], cur := 0 } := by
      simp [pton_state.wf]
    obtain ⟨⟨h1, h2, h3, h4, h5⟩, hr⟩ := loop_inv src _ st hw0 hl
    obtain ⟨saw, octets, done, cur⟩ := st
    simp only at h1 h2 h3 h4 h5 ho
    cases saw with
    | false => simp only [Bool.false_eq_true, if_false] at h1; omega
    | true =>
      simp only [if_true] at h1
      match done, h1, h3, h4 with
      | [z, y, x], _, _, h4 =>
        refine ⟨x, y, z, cur, h4 x (by simp), h4 y (by simp), h4 z (by simp), h5, by simp, ?_⟩
        simp only [pton_state.render, render_done, if_true, Bool.false_eq_true, if_false,
          List.nil_append, List.append_nil] at hr
        rw [← hr]
        simp [dotted_quad]
      | [], h1, _, _ => simp at h1; omega
      | [_], h1, _, _ => simp at h1; omega
      | [_, _], h1, _, _ => simp at h1; omega
      | _ :: _ :: _ :: _ :: _, _, h3, _ => simp at h3

/-! ## What split and stoul accept -/

theorem split_eq_one (sep : Char) (t x : List Char) (h : split sep t = [x]) :
    x = t ∧ sep ∉ t := by
  have hl := split_length sep t
  rw [h] at hl
  have hc : t.count sep = 0 := by simpa using hl.symm
  have hn : sep ∉ t := List.count_eq_zero.mp hc
  rw [split_not_mem sep t hn] at h
  simp only [List.cons.injEq, and_true] at h
  exact ⟨h.symm, hn⟩

theorem split_eq_two (sep : Char) : ∀ t x y : List Char, split sep t = [x, y] →
    t = x ++ sep :: y ∧ sep ∉ x ∧ sep ∉ y := by
  intro t
  induction t with
  | nil => intro x y h; simp [split] at h
  | cons c cs ih =>
    intro x y h
    rw [split] at h
    by_cases hc : c = sep
    · rw [if_pos hc] at h
      simp only [List.cons.injEq] at h
      obtain ⟨hx, hy⟩ := h
      obtain ⟨hy1, hy2⟩ := split_eq_one sep cs y hy
      subst hx
      subst hy1
      subst hc
      exact ⟨rfl, by simp, hy2⟩
    · rw [if_neg hc] at h
      cases hs : split sep cs with
      | nil => exact absurd hs (split_ne_nil sep cs)
      | cons x1 xs =>
        rw [hs] at h
        simp only [List.cons.injEq] at h
        obtain ⟨hx, hxs⟩ := h
        subst hx
        subst hxs
        obtain ⟨e, n1, n2⟩ := ih x1 y hs
        refine ⟨by rw [e]; rfl, ?_, n2⟩
        intro hm
        rcases List.mem_cons.mp hm with hm | hm
        · exact hc hm.symm
        · exact n1 hm

theorem strtoul_sign_spec (s : List Char) :
    ∃ sg, s = sg ++ (strtoul_sign s).2 ∧
      ((sg = [] ∧ (strtoul_sign s).1 = false) ∨ (sg = ['+'] ∧ (strtoul_sign s).1 = false) ∨
        (sg = ['-'] ∧ (strtoul_sign s).1 = true)) := by
  cases s with
  | nil => exact ⟨[], rfl, Or.inl ⟨rfl, rfl⟩⟩
  | cons c r =>
    unfold strtoul_sign
    by_cases hm : c = '-'
    · subst hm
      exact ⟨['-'], by simp, Or.inr (Or.inr ⟨rfl, by simp⟩)⟩
    · by_cases hp : c = '+'
      · subst hp
        exact ⟨['+'], by simp, Or.inr (Or.inl ⟨rfl, by simp⟩)⟩
      · exact ⟨[], by simp [hm, hp], Or.inl ⟨rfl, by simp [hm, hp]⟩⟩

theorem dropWhile_head (p : Char → Bool) : ∀ (l : List Char) (x : Char) (r : List Char),
    l.dropWhile p = x :: r → p x = false := by
  intro l
  induction l with
  | nil => intro x r h; simp at h
  | cons a l ih =>
    intro x r h
    rw [List.dropWhile_cons] at h
    by_cases ha : p a = true
    · rw [if_pos ha] at h
      exact ih x r h
    · rw [if_neg ha] at h
      simp only [List.cons.injEq] at h
      rw [← h.1]
      simpa using ha

/-- How `strtoul` splits a text it converts: white space, an optional sign, the
longest run of digits (non-empty), and the rest, which does not begin with a digit. -/
theorem strtoul_some_spec (s : List Char) (v : Nat) (erange : Bool)
    (h : strtoul s = some (v, erange)) :
    ∃ ws sg ds rest, s = ws ++ (sg ++ (ds ++ rest)) ∧ (∀ c ∈ ws, isspace c = true) ∧
      (sg = [] ∨ sg = ['+'] ∨ sg = ['-']) ∧ ds ≠ [] ∧ (∀ c ∈ ds, isdigit c = true) ∧
      (∀ x r, rest = x :: r → isdigit x = false) ∧
      (erange = false → digitsVal 0 ds ≤ ULONG_MAX ∧
        v = if sg = ['-'] then (ULONG_MAX + 1 - digitsVal 0 ds) % (ULONG_MAX + 1)
            else digitsVal 0 ds) := by
  unfold strtoul at h
  simp only at h
  by_cases hnil : (strtoul_sign (s.dropWhile isspace)).2.takeWhile isdigit = []
  · rw [if_pos hnil] at h
    cases h
  rw [if_neg hnil] at h
  obtain ⟨sg, hsg, hcases⟩ := strtoul_sign_spec (s.dropWhile isspace)
  refine ⟨s.takeWhile isspace, sg, (strtoul_sign (s.dropWhile isspace)).2.takeWhile isdigit,
    (strtoul_sign (s.dropWhile isspace)).2.dropWhile isdigit, ?_, ?_, ?_, hnil, ?_, ?_, ?_⟩
  · rw [List.takeWhile_append_dropWhile, ← hsg, List.takeWhile_append_dropWhile]
  · intro c hc
    exact (List.mem_takeWhile_imp hc)
  · rcases hcases with h1 | h1 | h1
    · exact Or.inl h1.1
    · exact Or.inr (Or.inl h1.1)
    · exact Or.inr (Or.inr h1.1)
  · intro c hc
    exact (List.mem_takeWhile_imp hc)
  · intro x r hr
    exact dropWhile_head isdigit _ x r hr
  · intro he
    subst he
    by_cases hov :
        digitsVal 0 ((strtoul_sign (s.dropWhile isspace)).2.takeWhile isdigit) > ULONG_MAX
    · rw [if_pos hov] at h
      simp at h
    rw [if_neg hov] at h
    simp only [Option.some.injEq, Prod.mk.injEq, and_true] at h
    refine ⟨by omega, ?_⟩
    rcases hcases with h1 | h1 | h1
    · rw [h1.2] at h
      simp [h1.1, ← h]
    · rw [h1.2] at h
      simp [h1.1, ← h]
    · rw [h1.2] at h
      simp [h1.1, ← h]

/-- What `std::stoul` accepts: white space, an optional sign, the longest run of
digits, non-empty and of a value that fits `unsigned long`, then anything. -/
theorem stoul_ok_spec (item : List Char) (v : Nat) (h : stoul item = .ok v) :
    ∃ ws sg ds rest, c_str item = ws ++ (sg ++ (ds ++ rest)) ∧ (∀ c ∈ ws, isspace c = true) ∧
      (sg = [] ∨ sg = ['+'] ∨ sg = ['-']) ∧ ds ≠ [] ∧ (∀ c ∈ ds, isdigit c = true) ∧
      (∀ x r, rest = x :: r → isdigit x = false) ∧
      digitsVal 0 ds ≤ ULONG_MAX ∧
      v = if sg = ['-'] then (ULONG_MAX + 1 - digitsVal 0 ds) % (ULONG_MAX + 1)
          else digitsVal 0 ds := by
  unfold stoul at h
  cases hs : strtoul (c_str item) with
  | none => rw [hs] at h; cases h
  | some r =>
    obtain ⟨v1, erange⟩ := r
    rw [hs] at h
    simp only at h
    cases erange with
    | true => simp at h
    | false =>
      simp only [Bool.false_eq_true, if_false, Except.ok.injEq] at h
      subst h
      obtain ⟨ws, sg, ds, rest, e1, e2, e3, e4, e5, e6, e7⟩ :=
        strtoul_some_spec (c_str item) v1 false hs
      exact ⟨ws, sg, ds, rest, e1, e2, e3, e4, e5, e6, (e7 rfl).1, (e7 rfl).2⟩

theorem c_str_append (pre s : List Char) (h : ∀ c ∈ pre, c.toNat ≠ 0) :
    c_str (pre ++ s) = pre ++ c_str s := by
  unfold c_str
  exact List.takeWhile_append_of_pos (fun c hc => by simpa using h c hc)

theorem what_invalid_format (t : List Char) :
    std_invalid_argument ("invalid format: ".toList ++ t) =
      Exn.invalid_argument ("invalid format: ".toList ++ c_str t) := by
  unfold std_invalid_argument
  rw [c_str_append _ _ (by decide)]

/-! ## More on the string constructor -/

theorem from_string_ok (s : List Char) (bytes : List Nat)
    (h : address_v4.from_string s = .ok bytes) :
    ∃ a b c d, a < 256 ∧ b < 256 ∧ c < 256 ∧ d < 256 ∧ bytes = [a, b, c, d] ∧
      c_str s = dotted_quad a b c d := by
  unfold address_v4.from_string at h
  cases hs : inet_pton4 (c_str s) with
  | none => rw [hs] at h; cases h
  | some b1 =>
    rw [hs] at h
    simp only [Except.ok.injEq] at h
    subst h
    exact inet_pton4_sound _ _ hs

theorem of_string_three (t : List Char) (h : 3 ≤ (split ':' t).length) :
    ipv4_addr.of_string t =
      .error (Exn.invalid_argument ("invalid format: ".toList ++ c_str t)) := by
  rw [← what_invalid_format]
  unfold ipv4_addr.of_string
  split
  · rename_i heq; rw [heq] at h; simp at h
  · rename_i heq; rw [heq] at h; simp at h
  · rfl

theorem of_string_one (t x : List Char) (h : split ':' t = [x]) :
    ipv4_addr.of_string t =
      match address_v4.from_string t with
      | .error e => .error e
      | .ok a => .ok { ip := address_v4.to_ulong a % 2 ^ 32, port := 0 } := by
  unfold ipv4_addr.of_string
  rw [h]

theorem of_string_two (t x y : List Char) (h : split ':' t = [x, y]) :
    ipv4_addr.of_string t =
      match address_v4.from_string x with
      | .error e => .error e
      | .ok a =>
        match stoul y with
        | .error e => .error e
        | .ok p => .ok { ip := address_v4.to_ulong a % 2 ^ 32, port := p % 2 ^ 16 } := by
  unfold ipv4_addr.of_string
  rw [h]

theorem quad_value_lt (a b c d : Nat) (ha : a < 256) (hb : b < 256) (hc : c < 256) (hd : d < 256) :
    (a * 2 ^ 24 + b * 2 ^ 16 + c * 2 ^ 8 + d) % 2 ^ 32 = a * 2 ^ 24 + b * 2 ^ 16 + c * 2 ^ 8 + d := by
  omega

theorem octets_recompose (x : Nat) (h : x < 2 ^ 32) :
    x / 2 ^ 24 % 256 * 2 ^ 24 + x / 2 ^ 16 % 256 * 2 ^ 16 + x / 2 ^ 8 % 256 * 2 ^ 8 + x % 256 = x := by
  omega


theorem split_cases (t : List Char) (h : (split ':' t).length ≤ 2) :
    (∃ x, split ':' t = [x]) ∨ ∃ x y, split ':' t = [x, y] := by
  match hs : split ':' t with
  | [] => exact absurd hs (split_ne_nil ':' t)
  | [x] => exact Or.inl ⟨x, rfl⟩
  | [x, y] => exact Or.inr ⟨x, y, rfl⟩
  | _ :: _ :: _ :: _ => rw [hs] at h; simp at h

theorem of_string_operator_shl (addr : ipv4_addr) (hip : addr.ip < 2 ^ 32)
    (hport : addr.port < 2 ^ 16) : ipv4_addr.of_string (operator_shl [] addr) = .ok addr := by
  rw [operator_shl_eq, List.nil_append,
    of_string_address_text_eq _ _ _ _ _ (Nat.mod_lt _ (by decide)) (Nat.mod_lt _ (by decide))
      (Nat.mod_lt _ (by decide)) (Nat.mod_lt _ (by decide)) (by omega),
    octets_recompose addr.ip hip]

theorem make_other_bytes (e : Endian) (uninit : socket_address) (addr : ipv4_addr) (i : Fin 128)
    (h : 8 ≤ i.val) : (make_ipv4_address e uninit addr).u i = uninit.u i := by
  have n0 : i ≠ 0 := by intro e0; rw [e0] at h; exact absurd h (by decide)
  have n1 : i ≠ 1 := by intro e0; rw [e0] at h; exact absurd h (by decide)
  have n2 : i ≠ 2 := by intro e0; rw [e0] at h; exact absurd h (by decide)
  have n3 : i ≠ 3 := by intro e0; rw [e0] at h; exact absurd h (by decide)
  have n4 : i ≠ 4 := by intro e0; rw [e0] at h; exact absurd h (by decide)
  have n5 : i ≠ 5 := by intro e0; rw [e0] at h; exact absurd h (by decide)
  have n6 : i ≠ 6 := by intro e0; rw [e0] at h; exact absurd h (by decide)
  have n7 : i ≠ 7 := by intro e0; rw [e0] at h; exact absurd h (by decide)
  have e1 : (0 : Fin 128) + 1 = 1 := rfl
  rw [make_ipv4_address_eq]
  cases e <;> simp [store16, Function.update_apply, n0, n1, n2, n3, n4, n5, n6, n7, e1]

theorem strtoul_digits (ds : List Char) (hne : ds ≠ []) (hd : ∀ c ∈ ds, isdigit c = true)
    (hfit : digitsVal 0 ds ≤ ULONG_MAX) : strtoul ds = some (digitsVal 0 ds, false) := by
  cases ds with
  | nil => exact absurd rfl hne
  | cons c r =>
    have hc : isdigit c = true := hd c (by simp)
    have hsp : isspace c = false := by
      rw [isdigit_iff] at hc
      simp only [isspace, Bool.or_eq_false_iff, Bool.and_eq_false_iff, decide_eq_false_iff_not]
      omega
    have hm : ¬ c = '-' := isdigit_ne c '-' hc (by decide)
    have hp : ¬ c = '+' := isdigit_ne c '+' hc (by decide)
    have e1 : (c :: r).dropWhile isspace = c :: r := by
      rw [List.dropWhile_cons, hsp]; rfl
    have e2 : strtoul_sign (c :: r) = (false, c :: r) := by
      simp [strtoul_sign, hm, hp]
    have e3 : (c :: r).takeWhile isdigit = c :: r := by
      rw [List.takeWhile_eq_self_iff]; exact hd
    unfold strtoul
    simp only [e1, e2, e3]
    have h3 : ¬ digitsVal 0 (c :: r) > ULONG_MAX := by omega
    simp [h3]

theorem stoul_digits (ds : List Char) (hne : ds ≠ []) (hd : ∀ c ∈ ds, isdigit c = true)
    (hfit : digitsVal 0 ds ≤ ULONG_MAX) : stoul ds = .ok (digitsVal 0 ds) := by
  have hc : c_str ds = ds :=
    c_str_eq ds (fun x hx => isdigit_toNat_ne x 0 (hd x hx) (Or.inl (by decide)))
  unfold stoul
  rw [hc, strtoul_digits ds hne hd hfit]
  simp

theorem of_socket_address_congr (e : Endian) (sa1 sa2 : socket_address)
    (h : ∀ i : Fin 128, 2 ≤ i.val → i.val < 8 → sa1.u i = sa2.u i) :
    ipv4_addr.of_socket_address e sa1 = ipv4_addr.of_socket_address e sa2 := by
  have h2 := h 2 (by decide) (by decide)
  have h3 := h 3 (by decide) (by decide)
  have h4 := h 4 (by decide) (by decide)
  have h5 := h 5 (by decide) (by decide)
  have h6 := h 6 (by decide) (by decide)
  have h7 := h 7 (by decide) (by decide)
  have e3 : (2 : Fin 128) + 1 = 3 := rfl
  have e5 : (4 : Fin 128) + 1 = 5 := rfl
  have e6 : (4 : Fin 128) + 2 = 6 := rfl
  have e7 : (4 : Fin 128) + 3 = 7 := rfl
  have hp : sa1.sin_port e = sa2.sin_port e := by
    cases e <;> simp only [socket_address.sin_port, load16, off_sin_port, e3, h2, h3]
  have ha : sa1.s_addr e = sa2.s_addr e := by
    cases e <;> simp only [socket_address.s_addr, load32, off_sin_addr, e5, e6, e7, h4, h5, h6, h7]
  simp only [ipv4_addr.of_socket_address, hp, ha]

/-! ## The accepted form determines the result -/

theorem takeWhile_isdigit_run (ds rest : List Char) (hds : ∀ c ∈ ds, isdigit c = true)
    (hrest : ∀ x r, rest = x :: r → isdigit x = false) :
    (ds ++ rest).takeWhile isdigit = ds := by
  rw [List.takeWhile_append_of_pos hds]
  cases rest with
  | nil => simp
  | cons x r => simp [List.takeWhile_cons, hrest x r rfl]

/-- The value `strtoul` computes from a text split into white space, sign, the longest
digit run and the rest. -/
theorem strtoul_form (ws sg ds rest : List Char) (hws : ∀ c ∈ ws, isspace c = true)
    (hsg : sg = [] ∨ sg = ['+'] ∨ sg = ['-']) (hne : ds ≠ [])
    (hds : ∀ c ∈ ds, isdigit c = true) (hrest : ∀ x r, rest = x :: r → isdigit x = false)
    (hfit : digitsVal 0 ds ≤ ULONG_MAX) :
    strtoul (ws ++ (sg ++ (ds ++ rest))) =
      some (if sg = ['-'] then (ULONG_MAX + 1 - digitsVal 0 ds) % (ULONG_MAX + 1)
        else digitsVal 0 ds, false) := by
  cases ds with
  | nil => exact absurd rfl hne
  | cons c ds1 =>
    have hc : isdigit c = true := hds c (by simp)
    have hsp : isspace c = false := by
      rw [isdigit_iff] at hc
      simp only [isspace, Bool.or_eq_false_iff, Bool.and_eq_false_iff, decide_eq_false_iff_not]
      omega
    have hm : ¬ c = '-' := isdigit_ne c '-' hc (by decide)
    have hp : ¬ c = '+' := isdigit_ne c '+' hc (by decide)
    have hsign : strtoul_sign ((sg ++ (c :: ds1 ++ rest)).dropWhile isspace) =
        (decide (sg = ['-']), c :: ds1 ++ rest) := by
      rcases hsg with h1 | h1 | h1
      · subst h1
        simp [List.dropWhile_cons, hsp, strtoul_sign, hm, hp]
      · subst h1
        have hs1 : isspace '+' = false := by decide
        simp [List.dropWhile_cons, hs1, strtoul_sign]
      · subst h1
        have hs1 : isspace '-' = false := by decide
        simp [List.dropWhile_cons, hs1, strtoul_sign]
    have hdrop : (ws ++ (sg ++ (c :: ds1 ++ rest))).dropWhile isspace =
        (sg ++ (c :: ds1 ++ rest)).dropWhile isspace :=
      List.dropWhile_append_of_pos hws
    have htake : (c :: ds1 ++ rest).takeWhile isdigit = c :: ds1 :=
      takeWhile_isdigit_run (c :: ds1) rest hds hrest
    have hov : ¬ digitsVal 0 (c :: ds1) > ULONG_MAX := by omega
    unfold strtoul
    simp only [hdrop, hsign, htake]
    rw [if_neg (by simp), if_neg hov]
    by_cases hneg : sg = ['-']
    · simp [hneg]
    · simp [hneg]

/-- A text of the accepted form `quad:port` is accepted, with the address the form
describes. -/
theorem of_string_of_form (item0 item1 ws sg ds rest : List Char) (a b c d : Nat)
    (ha : a < 256) (hb : b < 256) (hc : c < 256) (hd : d < 256)
    (h0 : ':' ∉ item0) (h1 : ':' ∉ item1) (hq : c_str item0 = dotted_quad a b c d)
    (hp : c_str item1 = ws ++ (sg ++ (ds ++ rest))) (hws : ∀ x ∈ ws, isspace x = true)
    (hsg : sg = [] ∨ sg = ['+'] ∨ sg = ['-']) (hne : ds ≠ [])
    (hds : ∀ x ∈ ds, isdigit x = true) (hrest : ∀ x r, rest = x :: r → isdigit x = false)
    (hfit : digitsVal 0 ds ≤ ULONG_MAX) :
    ipv4_addr.of_string (item0 ++ ':' :: item1) =
      .ok { ip := a * 2 ^ 24 + b * 2 ^ 16 + c * 2 ^ 8 + d,
            port := (if sg = ['-'] then (ULONG_MAX + 1 - digitsVal 0 ds) % (ULONG_MAX + 1)
              else digitsVal 0 ds) % 2 ^ 16 } := by
  have hs : split ':' (item0 ++ ':' :: item1) = [item0, item1] := by
    rw [split_append ':' _ _ h0, split_not_mem ':' _ h1]
  have hf : address_v4.from_string item0 = .ok [a, b, c, d] := by
    unfold address_v4.from_string
    rw [hq, inet_pton4_dotted_quad a b c d ha hb hc hd]
  have hst : stoul item1 =
      .ok (if sg = ['-'] then (ULONG_MAX + 1 - digitsVal 0 ds) % (ULONG_MAX + 1)
        else digitsVal 0 ds) := by
    unfold stoul
    rw [hp, strtoul_form ws sg ds rest hws hsg hne hds hrest hfit]
    simp
  rw [of_string_two _ _ _ hs, hf, hst]
  simp only [to_ulong_quad, quad_value_lt a b c d ha hb hc hd]

/-! ## The channel state machine once closed -/

theorem perform_closed {Packet δ : Type} (valid : ipv4_addr → Bool) (s : channel_state Packet δ)
    (hs : s.closed = true) (c : Call Packet) :
    (udp_channel.of_impl (some (spec_channel_impl valid, s))).perform c =
      .returned (closed_reply c, udp_channel.of_impl (some (spec_channel_impl valid, s))) := by
  obtain ⟨closed, inbound, outbound⟩ := s
  simp only at hs
  subst hs
  cases c <;> rfl

theorem run_closed {Packet δ : Type} (valid : ipv4_addr → Bool) (s : channel_state Packet δ)
    (hs : s.closed = true) (calls : List (Call Packet)) :
    (udp_channel.of_impl (some (spec_channel_impl valid, s))).run calls =
      .returned (calls.map closed_reply,
        udp_channel.of_impl (some (spec_channel_impl valid, s))) := by
  induction calls with
  | nil => rfl
  | cons c cs ih =>
    simp only [udp_channel.run, perform_closed valid s hs c, ih, Outcome.map, List.map_cons]

/-! ## The claims about the address model -/

/-- C1: for every canonical address text `a.b.c.d:port` (octets 0-255, port 0-65535,
no zero padding) the string constructor succeeds and the stream inserter prints the
resulting address as exactly that text. -/
theorem text_round_trip (a b c d p : Nat) (ha : a < 256) (hb : b < 256) (hc : c < 256)
    (hd : d < 256) (hp : p < 65536) :
    ∃ addr, ipv4_addr.of_string (address_text a b c d p) = .ok addr ∧
      operator_shl [] addr = address_text a b c d p := by
  refine ⟨_, of_string_address_text_eq a b c d p ha hb hc hd hp, ?_⟩
  obtain ⟨h0, h1, h2, h3⟩ := pack4 a b c d ha hb hc hd
  rw [operator_shl_eq]
  simp only [List.nil_append]
  rw [show (256 : Nat) = 2 ^ 8 from rfl, h3, h2, h1, h0]

/-- The text round trip at `192.168.1.5:53`. -/
theorem text_round_trip_witness :
    (192 < 256 ∧ 168 < 256 ∧ 1 < 256 ∧ 5 < 256 ∧ 53 < 65536) ∧
      address_text 192 168 1 5 53 = "192.168.1.5:53".toList ∧
      ∃ addr, ipv4_addr.of_string (address_text 192 168 1 5 53) = .ok addr ∧
        operator_shl [] addr = address_text 192 168 1 5 53 :=
  ⟨by decide, by decide,
    text_round_trip 192 168 1 5 53 (by decide) (by decide) (by decide) (by decide) (by decide)⟩

/-- C2: for every 32-bit ip and 16-bit port, on either host byte order and whatever the
uninitialised storage held, building an `ipv4_addr` from `make_ipv4_address(addr)`
gives back `addr`. -/
theorem byte_order_round_trip (e : Endian) (uninit : socket_address) (addr : ipv4_addr)
    (hip : addr.ip < 2 ^ 32) (hport : addr.port < 2 ^ 16) :
    ipv4_addr.of_socket_address e (make_ipv4_address e uninit addr) = addr := by
  obtain ⟨p2, p3⟩ := make_port_bytes e uninit addr
  obtain ⟨a4, a5, a6, a7⟩ := make_addr_bytes e uninit addr
  rw [of_socket_address_bytes, p2, p3, a4, a5, a6, a7]
  obtain ⟨ip, port⟩ := addr
  simp only at hip hport
  simp only [ipv4_addr.mk.injEq]
  constructor <;> omega

/-- The byte-order round trip of 192.168.1.5 port 53 on a little-endian host. -/
theorem byte_order_round_trip_witness :
    ((⟨3232235781, 53⟩ : ipv4_addr).ip < 2 ^ 32 ∧ (⟨3232235781, 53⟩ : ipv4_addr).port < 2 ^ 16) ∧
      ipv4_addr.of_socket_address .little
        (make_ipv4_address .little ⟨fun _ => 255⟩ ⟨3232235781, 53⟩) = ⟨3232235781, 53⟩ :=
  ⟨by decide, byte_order_round_trip .little ⟨fun _ => 255⟩ ⟨3232235781, 53⟩ (by decide) (by decide)⟩

/-- C3: on either host byte order the constructor from a `socket_address` yields the
big-endian value of the port bytes (offsets 2, 3) and of the address bytes (offsets
4 to 7); on a little-endian host these are the byte-swapped raw field values, on a
big-endian host the raw field values, and on a little-endian host they can differ
from the raw field values. -/
theorem from_raw_network_to_host (e : Endian) (sa : socket_address) :
    (ipv4_addr.of_socket_address e sa).port = (sa.u 2).val * 256 + (sa.u 3).val ∧
    (ipv4_addr.of_socket_address e sa).ip =
      (sa.u 4).val * 2 ^ 24 + (sa.u 5).val * 2 ^ 16 + (sa.u 6).val * 2 ^ 8 + (sa.u 7).val ∧
    (ipv4_addr.of_socket_address .little sa).port = bswap16 (sa.sin_port .little) ∧
    (ipv4_addr.of_socket_address .little sa).ip = bswap32 (sa.s_addr .little) ∧
    (ipv4_addr.of_socket_address .big sa).port = sa.sin_port .big ∧
    (ipv4_addr.of_socket_address .big sa).ip = sa.s_addr .big ∧
    ∃ sa0 : socket_address,
      (ipv4_addr.of_socket_address .little sa0).port ≠ sa0.sin_port .little ∧
      (ipv4_addr.of_socket_address .little sa0).ip ≠ sa0.s_addr .little := by
  have h2 := (sa.u 2).isLt
  have h3 := (sa.u 3).isLt
  have h4 := (sa.u 4).isLt
  have h5 := (sa.u 5).isLt
  have h6 := (sa.u 6).isLt
  have h7 := (sa.u 7).isLt
  refine ⟨by rw [of_socket_address_bytes]; rfl, by rw [of_socket_address_bytes], rfl, rfl, ?_, ?_, ?_⟩
  · simp only [ipv4_addr.of_socket_address, net_ntoh16, socket_address.sin_port, load16,
      off_sin_port]
    have e1 : (2 : Fin 128) + 1 = 3 := rfl
    rw [e1]
    omega
  · simp only [ipv4_addr.of_socket_address, net_ntoh32, socket_address.s_addr, load32,
      off_sin_addr]
    have e1 : (4 : Fin 128) + 1 = 5 := rfl
    have e2 : (4 : Fin 128) + 2 = 6 := rfl
    have e3 : (4 : Fin 128) + 3 = 7 := rfl
    rw [e1, e2, e3]
    omega
  · exact ⟨⟨fun i => if i = 3 ∨ i = 7 then 1 else 0⟩, by decide, by decide⟩


/-- C5, as the code has it: a text with two or more `:` makes the string constructor
throw `std::invalid_argument`, and no address is produced; the `what()` of the error
is "invalid format: " followed by the text as a C string, that is up to its first
NUL character, and so by the whole text when the text has no NUL character. -/
theorem wrong_segment_count (t : List Char) (h : 2 ≤ t.count ':') :
    ipv4_addr.of_string t =
      .error (Exn.invalid_argument ("invalid format: ".toList ++ c_str t)) ∧
    ((∀ c ∈ t, c.toNat ≠ 0) →
      ipv4_addr.of_string t = .error (Exn.invalid_argument ("invalid format: ".toList ++ t))) := by
  have h3 : 3 ≤ (split ':' t).length := by
    rw [split_length]
    omega
  refine ⟨of_string_three t h3, ?_⟩
  intro hn
  rw [of_string_three t h3, c_str_eq t hn]

/-- The rejection of `1.2.3.4:80:90`, a text with two colons and no NUL character. -/
theorem wrong_segment_count_witness :
    2 ≤ "1.2.3.4:80:90".toList.count ':' ∧
    ipv4_addr.of_string "1.2.3.4:80:90".toList =
      .error (Exn.invalid_argument "invalid format: 1.2.3.4:80:90".toList) ∧
    (ipv4_addr.of_string "1.2.3.4:80:90".toList =
      .error (Exn.invalid_argument ("invalid format: ".toList ++ c_str "1.2.3.4:80:90".toList)) ∧
    ((∀ c ∈ "1.2.3.4:80:90".toList, c.toNat ≠ 0) →
      ipv4_addr.of_string "1.2.3.4:80:90".toList =
        .error (Exn.invalid_argument ("invalid format: ".toList ++ "1.2.3.4:80:90".toList)))) :=
  ⟨by decide, by decide, wrong_segment_count "1.2.3.4:80:90".toList (by decide)⟩

/-- C5 as stated fails: for the text `1.2.3.4:80`, a NUL character, `:x` (three
components) the `what()` of the error is "invalid format: 1.2.3.4:80", which does
not carry the whole text. -/
theorem wrong_segment_count_message_cut :
    2 ≤ ("1.2.3.4:80".toList ++ Char.ofNat 0 :: ":x".toList).count ':' ∧
    ipv4_addr.of_string ("1.2.3.4:80".toList ++ Char.ofNat 0 :: ":x".toList) =
      .error (Exn.invalid_argument "invalid format: 1.2.3.4:80".toList) ∧
    ipv4_addr.of_string ("1.2.3.4:80".toList ++ Char.ofNat 0 :: ":x".toList) ≠
      .error (Exn.invalid_argument
        ("invalid format: ".toList ++ ("1.2.3.4:80".toList ++ Char.ofNat 0 :: ":x".toList))) := by
  decide

/-- C6, as the code has it: when the string constructor succeeds, the text has at
most one `:`, its address component (as a C string) is exactly the canonical dotted
quad of the octets of the resulting ip, and either there is no port component and
the port is 0, or the port component (as a C string) is white space, an optional
sign, the longest run of digits, non-empty and of value at most `ULONG_MAX`, and then
anything not beginning with a digit, and the port is that value (negated modulo
`2^64` after a minus sign) modulo `2^16`. -/
theorem accepted_text_form (t : List Char) (addr : ipv4_addr)
    (h : ipv4_addr.of_string t = .ok addr) :
    ∃ a b c d, a < 256 ∧ b < 256 ∧ c < 256 ∧ d < 256 ∧
      addr.ip = a * 2 ^ 24 + b * 2 ^ 16 + c * 2 ^ 8 + d ∧
      ((':' ∉ t ∧ c_str t = dotted_quad a b c d ∧ addr.port = 0) ∨
        ∃ item0 item1 ws sg ds rest, t = item0 ++ ':' :: item1 ∧ ':' ∉ item0 ∧ ':' ∉ item1 ∧
          c_str item0 = dotted_quad a b c d ∧ c_str item1 = ws ++ (sg ++ (ds ++ rest)) ∧
          (∀ x ∈ ws, isspace x = true) ∧ (sg = [] ∨ sg = ['+'] ∨ sg = ['-']) ∧ ds ≠ [] ∧
          (∀ x ∈ ds, isdigit x = true) ∧ (∀ x r, rest = x :: r → isdigit x = false) ∧
          digitsVal 0 ds ≤ ULONG_MAX ∧
          addr.port = (if sg = ['-'] then (ULONG_MAX + 1 - digitsVal 0 ds) % (ULONG_MAX + 1)
            else digitsVal 0 ds) % 2 ^ 16) := by
  by_cases h3 : 3 ≤ (split ':' t).length
  · rw [of_string_three t h3] at h
    cases h
  · rcases split_cases t (by omega) with ⟨x, hx⟩ | ⟨x, y, hxy⟩
    · obtain ⟨_, hn⟩ := split_eq_one ':' t x hx
      rw [of_string_one t x hx] at h
      cases hf : address_v4.from_string t with
      | error e => rw [hf] at h; cases h
      | ok bytes =>
        rw [hf] at h
        simp only [Except.ok.injEq] at h
        obtain ⟨a, b, c, d, ha, hb, hc, hd, hbytes, htext⟩ := from_string_ok t bytes hf
        subst hbytes
        rw [to_ulong_quad, quad_value_lt a b c d ha hb hc hd] at h
        subst h
        exact ⟨a, b, c, d, ha, hb, hc, hd, rfl, Or.inl ⟨hn, htext, rfl⟩⟩
    · obtain ⟨ht, hn0, hn1⟩ := split_eq_two ':' t x y hxy
      rw [of_string_two t x y hxy] at h
      cases hf : address_v4.from_string x with
      | error e => rw [hf] at h; cases h
      | ok bytes =>
        rw [hf] at h
        simp only at h
        cases hp : stoul y with
        | error e => rw [hp] at h; cases h
        | ok v =>
          rw [hp] at h
          simp only [Except.ok.injEq] at h
          obtain ⟨a, b, c, d, ha, hb, hc, hd, hbytes, htext⟩ := from_string_ok x bytes hf
          obtain ⟨ws, sg, ds, rest, e1, e2, e3, e4, e5, e8, e6, e7⟩ := stoul_ok_spec y v hp
          subst hbytes
          rw [to_ulong_quad, quad_value_lt a b c d ha hb hc hd] at h
          subst h
          refine ⟨a, b, c, d, ha, hb, hc, hd, rfl, Or.inr ⟨x, y, ws, sg, ds, rest, ht, hn0, hn1,
            htext, e1, e2, e3, e4, e5, e8, e6, ?_⟩⟩
          simp only
          rw [e7]

/-- The form of the accepted text `10.0.0.1:9000`. -/
theorem accepted_text_form_witness :
    ipv4_addr.of_string "10.0.0.1:9000".toList = .ok ⟨167772161, 9000⟩ ∧
    ∃ a b c d, a < 256 ∧ b < 256 ∧ c < 256 ∧ d < 256 ∧
      (⟨167772161, 9000⟩ : ipv4_addr).ip = a * 2 ^ 24 + b * 2 ^ 16 + c * 2 ^ 8 + d ∧
      ((':' ∉ "10.0.0.1:9000".toList ∧ c_str "10.0.0.1:9000".toList = dotted_quad a b c d ∧
          (⟨167772161, 9000⟩ : ipv4_addr).port = 0) ∨
        ∃ item0 item1 ws sg ds rest, "10.0.0.1:9000".toList = item0 ++ ':' :: item1 ∧
          ':' ∉ item0 ∧ ':' ∉ item1 ∧
          c_str item0 = dotted_quad a b c d ∧ c_str item1 = ws ++ (sg ++ (ds ++ rest)) ∧
          (∀ x ∈ ws, isspace x = true) ∧ (sg = [] ∨ sg = ['+'] ∨ sg = ['-']) ∧ ds ≠ [] ∧
          (∀ x ∈ ds, isdigit x = true) ∧ (∀ x r, rest = x :: r → isdigit x = false) ∧
          digitsVal 0 ds ≤ ULONG_MAX ∧
          (⟨167772161, 9000⟩ : ipv4_addr).port =
            (if sg = ['-'] then (ULONG_MAX + 1 - digitsVal 0 ds) % (ULONG_MAX + 1)
              else digitsVal 0 ds) % 2 ^ 16) :=
  ⟨by decide, accepted_text_form "10.0.0.1:9000".toList ⟨167772161, 9000⟩ (by decide)⟩

/-- C6 as stated fails: a port component that is out of range, signed, padded with
white space or followed by other characters is accepted; 70000 is silently cut to
4464 and -1 becomes 65535. -/
theorem port_component_not_validated :
    ipv4_addr.of_string "1.2.3.4:70000".toList = .ok ⟨16909060, 4464⟩ ∧
    ipv4_addr.of_string "1.2.3.4:-1".toList = .ok ⟨16909060, 65535⟩ ∧
    ipv4_addr.of_string "1.2.3.4: 80".toList = .ok ⟨16909060, 80⟩ ∧
    ipv4_addr.of_string "1.2.3.4:80xyz".toList = .ok ⟨16909060, 80⟩ := by
  decide

/-- C7: for octets a, b, c, d in 0..255 and a port p in 0..65535 in decimal, the text
`a.b.c.d:p` parses to ip `a*2^24 + b*2^16 + c*2^8 + d` and port `p`, and the text
`a.b.c.d` alone parses to the same ip with port 0. -/
theorem parse_result (a b c d p : Nat) (ha : a < 256) (hb : b < 256) (hc : c < 256)
    (hd : d < 256) (hp : p < 65536) :
    ipv4_addr.of_string (address_text a b c d p) =
      .ok { ip := a * 2 ^ 24 + b * 2 ^ 16 + c * 2 ^ 8 + d, port := p } ∧
    ipv4_addr.of_string (dotted_quad a b c d) =
      .ok { ip := a * 2 ^ 24 + b * 2 ^ 16 + c * 2 ^ 8 + d, port := 0 } :=
  ⟨of_string_address_text_eq a b c d p ha hb hc hd hp, of_string_dotted_quad_eq a b c d ha hb hc hd⟩

/-- The parse results of `10.0.0.1:9000` and `10.0.0.1`. -/
theorem parse_result_witness :
    (10 < 256 ∧ 0 < 256 ∧ 0 < 256 ∧ 1 < 256 ∧ 9000 < 65536) ∧
    address_text 10 0 0 1 9000 = "10.0.0.1:9000".toList ∧
    dotted_quad 10 0 0 1 = "10.0.0.1".toList ∧
    (ipv4_addr.of_string (address_text 10 0 0 1 9000) =
      .ok { ip := 10 * 2 ^ 24 + 0 * 2 ^ 16 + 0 * 2 ^ 8 + 1, port := 9000 } ∧
    ipv4_addr.of_string (dotted_quad 10 0 0 1) =
      .ok { ip := 10 * 2 ^ 24 + 0 * 2 ^ 16 + 0 * 2 ^ 8 + 1, port := 0 }) :=
  ⟨by decide, by decide, by decide,
    parse_result 10 0 0 1 9000 (by decide) (by decide) (by decide) (by decide) (by decide)⟩


/-- C8: for every address with a 32-bit ip and a 16-bit port, the text the stream
inserter prints is accepted by the string constructor and parses back to the same
address; hence two such addresses that print alike are equal. -/
theorem value_round_trip (addr : ipv4_addr) (hip : addr.ip < 2 ^ 32) (hport : addr.port < 2 ^ 16) :
    ipv4_addr.of_string (operator_shl [] addr) = .ok addr ∧
    ∀ other : ipv4_addr, other.ip < 2 ^ 32 → other.port < 2 ^ 16 →
      operator_shl [] other = operator_shl [] addr → other = addr := by
  refine ⟨of_string_operator_shl addr hip hport, ?_⟩
  intro other h1 h2 heq
  have e1 := of_string_operator_shl other h1 h2
  rw [heq, of_string_operator_shl addr hip hport] at e1
  simp only [Except.ok.injEq] at e1
  exact e1.symm

/-- The value round trip of 192.168.1.5 port 53. -/
theorem value_round_trip_witness :
    ((⟨3232235781, 53⟩ : ipv4_addr).ip < 2 ^ 32 ∧ (⟨3232235781, 53⟩ : ipv4_addr).port < 2 ^ 16) ∧
    operator_shl [] ⟨3232235781, 53⟩ = "192.168.1.5:53".toList ∧
    (ipv4_addr.of_string (operator_shl [] ⟨3232235781, 53⟩) = .ok ⟨3232235781, 53⟩ ∧
    ∀ other : ipv4_addr, other.ip < 2 ^ 32 → other.port < 2 ^ 16 →
      operator_shl [] other = operator_shl [] ⟨3232235781, 53⟩ → other = ⟨3232235781, 53⟩) :=
  ⟨by decide, by decide, value_round_trip ⟨3232235781, 53⟩ (by decide) (by decide)⟩

/-- C9: for every address with a 32-bit ip the stream inserter
appends exactly `a.b.c.d:p` to the stream, where a, b, c, d are the base-256 digits
of the ip from most to least significant, each below 256 and printed as a plain
decimal number, and p is the port printed as a plain decimal number. -/
theorem format_output (os : List Char) (addr : ipv4_addr) (hip : addr.ip < 2 ^ 32) :
    ∃ a b c d, a < 256 ∧ b < 256 ∧ c < 256 ∧ d < 256 ∧
      addr.ip = a * 2 ^ 24 + b * 2 ^ 16 + c * 2 ^ 8 + d ∧
      operator_shl os addr =
        os ++ ((toString a).toList ++ ['.'] ++ (toString b).toList ++ ['.'] ++
          (toString c).toList ++ ['.'] ++ (toString d).toList ++ [':'] ++
          (toString addr.port).toList) := by
  refine ⟨addr.ip / 2 ^ 24 % 256, addr.ip / 2 ^ 16 % 256, addr.ip / 2 ^ 8 % 256, addr.ip % 256,
    Nat.mod_lt _ (by decide), Nat.mod_lt _ (by decide), Nat.mod_lt _ (by decide),
    Nat.mod_lt _ (by decide), (octets_recompose addr.ip hip).symm, ?_⟩
  rw [operator_shl_eq]
  simp [address_text, dotted_quad, decimal_eq_toString]

/-- The printed form of 10.0.0.1 port 9000. -/
theorem format_output_witness :
    (⟨167772161, 9000⟩ : ipv4_addr).ip < 2 ^ 32 ∧
    operator_shl [] ⟨167772161, 9000⟩ = "10.0.0.1:9000".toList ∧
    ∃ a b c d, a < 256 ∧ b < 256 ∧ c < 256 ∧ d < 256 ∧
      (⟨167772161, 9000⟩ : ipv4_addr).ip = a * 2 ^ 24 + b * 2 ^ 16 + c * 2 ^ 8 + d ∧
      operator_shl [] ⟨167772161, 9000⟩ =
        [] ++ ((toString a).toList ++ ['.'] ++ (toString b).toList ++ ['.'] ++
          (toString c).toList ++ ['.'] ++ (toString d).toList ++ [':'] ++
          (toString (⟨167772161, 9000⟩ : ipv4_addr).port).toList) :=
  ⟨by decide, by decide, format_output [] ⟨167772161, 9000⟩ (by decide)⟩

/-- C10: for every address with a 32-bit ip and a 16-bit port, on either host byte
order and whatever the uninitialised storage held, `make_ipv4_address` returns a
`socket_address` whose family field reads `AF_INET`, whose port field holds the port
high byte first (it reads as `htons(port)`) and whose address field holds the ip most
significant octet first (it reads as `htonl(ip)`). -/
theorem to_raw_fields (e : Endian) (uninit : socket_address) (addr : ipv4_addr)
    (hip : addr.ip < 2 ^ 32) (hport : addr.port < 2 ^ 16) :
    (make_ipv4_address e uninit addr).sin_family e = AF_INET ∧
    ((make_ipv4_address e uninit addr).u 2).val = addr.port / 2 ^ 8 ∧
    ((make_ipv4_address e uninit addr).u 3).val = addr.port % 2 ^ 8 ∧
    ((make_ipv4_address e uninit addr).u 4).val = addr.ip / 2 ^ 24 ∧
    ((make_ipv4_address e uninit addr).u 5).val = addr.ip / 2 ^ 16 % 2 ^ 8 ∧
    ((make_ipv4_address e uninit addr).u 6).val = addr.ip / 2 ^ 8 % 2 ^ 8 ∧
    ((make_ipv4_address e uninit addr).u 7).val = addr.ip % 2 ^ 8 ∧
    (make_ipv4_address e uninit addr).sin_port e = htons e addr.port ∧
    (make_ipv4_address e uninit addr).s_addr e = htonl e addr.ip := by
  obtain ⟨p2, p3⟩ := make_port_bytes e uninit addr
  obtain ⟨a4, a5, a6, a7⟩ := make_addr_bytes e uninit addr
  have e1 : (2 : Fin 128) + 1 = 3 := rfl
  have e5 : (4 : Fin 128) + 1 = 5 := rfl
  have e6 : (4 : Fin 128) + 2 = 6 := rfl
  have e7 : (4 : Fin 128) + 3 = 7 := rfl
  refine ⟨make_family e uninit addr, by rw [p2]; omega, by rw [p3]; omega, by rw [a4]; omega,
    by rw [a5]; omega, by rw [a6]; omega, by rw [a7]; omega, ?_, ?_⟩
  · cases e <;>
      simp only [socket_address.sin_port, load16, off_sin_port, htons, bswap16, e1, p2, p3] <;>
      omega
  · cases e <;>
      simp only [socket_address.s_addr, load32, off_sin_addr, htonl, bswap32, e5, e6, e7, a4, a5,
        a6, a7] <;>
      omega

/-- The raw fields of 192.168.1.5 port 53 on a little-endian host. -/
theorem to_raw_fields_witness :
    ((⟨3232235781, 53⟩ : ipv4_addr).ip < 2 ^ 32 ∧ (⟨3232235781, 53⟩ : ipv4_addr).port < 2 ^ 16) ∧
    ((make_ipv4_address .little ⟨fun _ => 255⟩ ⟨3232235781, 53⟩).sin_family .little = AF_INET ∧
    ((make_ipv4_address .little ⟨fun _ => 255⟩ ⟨3232235781, 53⟩).u 2).val =
      (⟨3232235781, 53⟩ : ipv4_addr).port / 2 ^ 8 ∧
    ((make_ipv4_address .little ⟨fun _ => 255⟩ ⟨3232235781, 53⟩).u 3).val =
      (⟨3232235781, 53⟩ : ipv4_addr).port % 2 ^ 8 ∧
    ((make_ipv4_address .little ⟨fun _ => 255⟩ ⟨3232235781, 53⟩).u 4).val =
      (⟨3232235781, 53⟩ : ipv4_addr).ip / 2 ^ 24 ∧
    ((make_ipv4_address .little ⟨fun _ => 255⟩ ⟨3232235781, 53⟩).u 5).val =
      (⟨3232235781, 53⟩ : ipv4_addr).ip / 2 ^ 16 % 2 ^ 8 ∧
    ((make_ipv4_address .little ⟨fun _ => 255⟩ ⟨3232235781, 53⟩).u 6).val =
      (⟨3232235781, 53⟩ : ipv4_addr).ip / 2 ^ 8 % 2 ^ 8 ∧
    ((make_ipv4_address .little ⟨fun _ => 255⟩ ⟨3232235781, 53⟩).u 7).val =
      (⟨3232235781, 53⟩ : ipv4_addr).ip % 2 ^ 8 ∧
    (make_ipv4_address .little ⟨fun _ => 255⟩ ⟨3232235781, 53⟩).sin_port .little =
      htons .little (⟨3232235781, 53⟩ : ipv4_addr).port ∧
    (make_ipv4_address .little ⟨fun _ => 255⟩ ⟨3232235781, 53⟩).s_addr .little =
      htonl .little (⟨3232235781, 53⟩ : ipv4_addr).ip) :=
  ⟨by decide, to_raw_fields .little ⟨fun _ => 255⟩ ⟨3232235781, 53⟩ (by decide) (by decide)⟩


/-- C11, as the code has it: `make_ipv4_address` writes the family, port and address
fields only. Every byte of the returned `socket_address` from offset 8 on (the IPv4
padding and the rest of the storage-sized union) is what the default-initialised
local held before, on either host byte order. -/
theorem to_raw_other_bytes_untouched (e : Endian) (uninit : socket_address) (addr : ipv4_addr)
    (i : Fin 128) (h : 8 ≤ i.val) : (make_ipv4_address e uninit addr).u i = uninit.u i :=
  make_other_bytes e uninit addr i h

/-- The padding byte at offset 8 for 1.2.3.4 port 80 over storage filled with 255. -/
theorem to_raw_other_bytes_untouched_witness :
    8 ≤ (8 : Fin 128).val ∧
      (make_ipv4_address .little ⟨fun _ => 255⟩ ⟨16909060, 80⟩).u 8 =
        (⟨fun _ => 255⟩ : socket_address).u 8 :=
  ⟨by decide, to_raw_other_bytes_untouched .little ⟨fun _ => 255⟩ ⟨16909060, 80⟩ 8 (by decide)⟩

/-- C11 as stated fails: over storage that held 255 everywhere, the bytes of the
returned `socket_address` at offsets 8 (padding) and 127 (end of the union) are 255,
not zero. -/
theorem to_raw_not_zero_filled :
    ((make_ipv4_address .little ⟨fun _ => 255⟩ ⟨16909060, 80⟩).u 8).val = 255 ∧
    ((make_ipv4_address .little ⟨fun _ => 255⟩ ⟨16909060, 80⟩).u 127).val = 255 ∧
    ((make_ipv4_address .big ⟨fun _ => 255⟩ ⟨16909060, 80⟩).u 8).val = 255 := by
  decide

/-- C12: `is_ip_unspecified` is true exactly when ip is 0 and `is_port_unspecified`
exactly when port is 0, each whatever the other field is; the default-constructed
address has ip 0 and port 0 and both predicates true; the address constructed from a
16-bit port p alone has ip 0 and port p. -/
theorem unspecified_predicates (addr : ipv4_addr) (p : Nat) (hp : p < 2 ^ 16) :
    (is_ip_unspecified addr = true ↔ addr.ip = 0) ∧
    (is_port_unspecified addr = true ↔ addr.port = 0) ∧
    (∀ port2, is_ip_unspecified { ip := addr.ip, port := port2 } = is_ip_unspecified addr) ∧
    (∀ ip2, is_port_unspecified { ip := ip2, port := addr.port } = is_port_unspecified addr) ∧
    ipv4_addr.default = { ip := 0, port := 0 } ∧
    is_ip_unspecified ipv4_addr.default = true ∧
    is_port_unspecified ipv4_addr.default = true ∧
    ipv4_addr.of_port p = { ip := 0, port := p } := by
  refine ⟨by simp [is_ip_unspecified], by simp [is_port_unspecified], fun _ => rfl, fun _ => rfl,
    rfl, rfl, rfl, ?_⟩
  simp only [ipv4_addr.of_port, ipv4_addr.mk.injEq, true_and]
  omega

/-- The predicates on the address with ip 1 and port 0, and the address of port 53. -/
theorem unspecified_predicates_witness :
    53 < 2 ^ 16 ∧
    is_ip_unspecified ⟨1, 0⟩ = false ∧ is_port_unspecified ⟨1, 0⟩ = true ∧
    is_ip_unspecified ⟨0, 1⟩ = true ∧ is_port_unspecified ⟨0, 1⟩ = false ∧
    ((is_ip_unspecified ⟨1, 0⟩ = true ↔ (⟨1, 0⟩ : ipv4_addr).ip = 0) ∧
    (is_port_unspecified ⟨1, 0⟩ = true ↔ (⟨1, 0⟩ : ipv4_addr).port = 0) ∧
    (∀ port2, is_ip_unspecified { ip := (⟨1, 0⟩ : ipv4_addr).ip, port := port2 } =
      is_ip_unspecified ⟨1, 0⟩) ∧
    (∀ ip2, is_port_unspecified { ip := ip2, port := (⟨1, 0⟩ : ipv4_addr).port } =
      is_port_unspecified ⟨1, 0⟩) ∧
    ipv4_addr.default = { ip := 0, port := 0 } ∧
    is_ip_unspecified ipv4_addr.default = true ∧
    is_port_unspecified ipv4_addr.default = true ∧
    ipv4_addr.of_port 53 = { ip := 0, port := 53 }) :=
  ⟨by decide, by decide, by decide, by decide, by decide,
    unspecified_predicates ⟨1, 0⟩ 53 (by decide)⟩

/-- C17, as the code has it: on a default-constructed `udp_channel` every operation
dereferences the null `_impl` without any check, which is undefined behaviour; the
facade raises no assertion and returns nothing. -/
theorem no_backend_is_undefined (Packet δ σ : Type) (dst : ipv4_addr) (msg : List Char)
    (p : Packet) :
    (udp_channel.default : udp_channel Packet δ σ).receive = .undefined_behavior ∧
    (udp_channel.default : udp_channel Packet δ σ).send_msg dst msg = .undefined_behavior ∧
    (udp_channel.default : udp_channel Packet δ σ).send_packet dst p = .undefined_behavior ∧
    (udp_channel.default : udp_channel Packet δ σ).is_closed = .undefined_behavior ∧
    (udp_channel.default : udp_channel Packet δ σ).close = .undefined_behavior :=
  ⟨rfl, rfl, rfl, rfl, rfl⟩

/-- C17 as stated fails: on a default-constructed `udp_channel` no operation ends in an
assertion failure. -/
theorem no_backend_not_asserted :
    (udp_channel.default : udp_channel Unit Unit Unit).is_closed = .undefined_behavior ∧
    (udp_channel.default : udp_channel Unit Unit Unit).is_closed ≠ .assertion_failed ∧
    Outcome.map (fun _ => ()) (udp_channel.default : udp_channel Unit Unit Unit).close ≠
      .assertion_failed ∧
    Outcome.map (fun _ => ()) (udp_channel.default : udp_channel Unit Unit Unit).receive ≠
      .assertion_failed ∧
    Outcome.map (fun _ => ())
        ((udp_channel.default : udp_channel Unit Unit Unit).send_msg ⟨167772161, 9000⟩
          "ping".toList) ≠ .assertion_failed ∧
    Outcome.map (fun _ => ())
        ((udp_channel.default : udp_channel Unit Unit Unit).send_packet ⟨167772161, 9000⟩ ()) ≠
      .assertion_failed := by
  decide

/-- C18: for octets a, b, c, d in 0..255 and a non-empty text of decimal digits whose
number n fits an `unsigned long`, the text `a.b.c.d:n` parses, and the stored port is
n modulo 2^16. -/
theorem port_narrowing (a b c d n : Nat) (ds : List Char) (ha : a < 256) (hb : b < 256)
    (hc : c < 256) (hd : d < 256) (hne : ds ≠ []) (hdig : ∀ x ∈ ds, isdigit x = true)
    (hval : digitsVal 0 ds = n) (hfit : n ≤ ULONG_MAX) :
    ipv4_addr.of_string (dotted_quad a b c d ++ ':' :: ds) =
      .ok { ip := a * 2 ^ 24 + b * 2 ^ 16 + c * 2 ^ 8 + d, port := n % 2 ^ 16 } := by
  subst hval
  have hcolon : ':' ∉ ds := fun hm => absurd (hdig ':' hm) (by decide)
  have hs : split ':' (dotted_quad a b c d ++ ':' :: ds) = [dotted_quad a b c d, ds] := by
    rw [split_append ':' _ _ (colon_not_mem_dotted_quad a b c d), split_not_mem ':' _ hcolon]
  rw [of_string_two _ _ _ hs, from_string_dotted_quad a b c d ha hb hc hd,
    stoul_digits ds hne hdig hfit]
  simp only [to_ulong_quad, quad_value_lt a b c d ha hb hc hd]

/-- The ports of `1.2.3.4:70000` and `1.2.3.4:65536`. -/
theorem port_narrowing_witness :
    (1 < 256 ∧ 2 < 256 ∧ 3 < 256 ∧ 4 < 256 ∧ "70000".toList ≠ [] ∧
      (∀ x ∈ "70000".toList, isdigit x = true) ∧ digitsVal 0 "70000".toList = 70000 ∧
      70000 ≤ ULONG_MAX) ∧
    dotted_quad 1 2 3 4 ++ ':' :: "70000".toList = "1.2.3.4:70000".toList ∧
    ipv4_addr.of_string "1.2.3.4:65536".toList = .ok { ip := 16909060, port := 0 } ∧
    ipv4_addr.of_string (dotted_quad 1 2 3 4 ++ ':' :: "70000".toList) =
      .ok { ip := 1 * 2 ^ 24 + 2 * 2 ^ 16 + 3 * 2 ^ 8 + 4, port := 70000 % 2 ^ 16 } :=
  ⟨by decide, by decide, by decide,
    port_narrowing 1 2 3 4 70000 "70000".toList (by decide) (by decide) (by decide) (by decide)
      (by decide) (by decide) (by decide) (by decide)⟩

/-- C19: two `socket_address` values that agree on the bytes of the port and address
fields of the IPv4 view (offsets 2 to 7) give the same `ipv4_addr`, whatever their
family field and their other bytes are, on either host byte order; the constructor
is total, it never fails. -/
theorem from_raw_ignores_family (e : Endian) (sa1 sa2 : socket_address)
    (h : ∀ i : Fin 128, 2 ≤ i.val → i.val < 8 → sa1.u i = sa2.u i) :
    ipv4_addr.of_socket_address e sa1 = ipv4_addr.of_socket_address e sa2 :=
  of_socket_address_congr e sa1 sa2 h

/-- Two raw addresses for 0.0.0.1 port 53 that differ in the family field and in the
bytes after the address. -/
theorem from_raw_ignores_family_witness :
    (∀ i : Fin 128, 2 ≤ i.val → i.val < 8 →
      (⟨fun j => if j = 0 then 2 else if j = 3 then 53 else if j = 7 then 1 else 0⟩ :
        socket_address).u i =
      (⟨fun j => if j = 0 then 10 else if j = 3 then 53 else if j = 7 then 1 else
        if 8 ≤ j.val then 255 else 0⟩ : socket_address).u i) ∧
    ipv4_addr.of_socket_address .little
        ⟨fun j => if j = 0 then 2 else if j = 3 then 53 else if j = 7 then 1 else 0⟩ =
      ipv4_addr.of_socket_address .little
        ⟨fun j => if j = 0 then 10 else if j = 3 then 53 else if j = 7 then 1 else
          if 8 ≤ j.val then 255 else 0⟩ :=
  ⟨by decide,
    from_raw_ignores_family .little
      ⟨fun j => if j = 0 then 2 else if j = 3 then 53 else if j = 7 then 1 else 0⟩
      ⟨fun j => if j = 0 then 10 else if j = 3 then 53 else if j = 7 then 1 else
        if 8 ≤ j.val then 255 else 0⟩ (by decide)⟩


/-! ## The claims about datagrams and channels -/

/-- C13: over any backend b the facade operations `receive`, both `send`, `is_closed`
and `close` return exactly what the same operation of b returns on the same arguments
and leave b in the state that one such call leaves it in; over a backend that records
its calls, each facade operation adds exactly one entry, the same operation with the
same arguments. Sending "ping" to the address parsed from `10.0.0.1:9000` over the
recording mock records that destination and payload and resolves as the mock does. -/
theorem facade_forwards {Packet δ σ : Type} (b : udp_channel_impl Packet δ σ) (s : σ)
    (log : List (Call Packet)) (dst : ipv4_addr) (msg : List Char) (p : Packet) :
    (udp_channel.of_impl (some (b, s))).receive =
      .returned ((b.receive s).1, udp_channel.of_impl (some (b, (b.receive s).2))) ∧
    (udp_channel.of_impl (some (b, s))).send_msg dst msg =
      .returned ((b.send_msg dst msg s).1,
        udp_channel.of_impl (some (b, (b.send_msg dst msg s).2))) ∧
    (udp_channel.of_impl (some (b, s))).send_packet dst p =
      .returned ((b.send_packet dst p s).1,
        udp_channel.of_impl (some (b, (b.send_packet dst p s).2))) ∧
    (udp_channel.of_impl (some (b, s))).is_closed = .returned (b.is_closed s) ∧
    (udp_channel.of_impl (some (b, s))).close =
      .returned (udp_channel.of_impl (some (b, b.close s))) ∧
    (udp_channel.of_impl (some (recording b, (s, log)))).receive =
      .returned ((b.receive s).1,
        udp_channel.of_impl (some (recording b, ((b.receive s).2, log ++ [Call.receive])))) ∧
    (udp_channel.of_impl (some (recording b, (s, log)))).send_msg dst msg =
      .returned ((b.send_msg dst msg s).1,
        udp_channel.of_impl
          (some (recording b, ((b.send_msg dst msg s).2, log ++ [Call.send_msg dst msg])))) ∧
    (udp_channel.of_impl (some (recording b, (s, log)))).send_packet dst p =
      .returned ((b.send_packet dst p s).1,
        udp_channel.of_impl
          (some (recording b, ((b.send_packet dst p s).2, log ++ [Call.send_packet dst p])))) ∧
    (udp_channel.of_impl (some (recording b, (s, log)))).is_closed =
      .returned (b.is_closed s) ∧
    (udp_channel.of_impl (some (recording b, (s, log)))).close =
      .returned (udp_channel.of_impl (some (recording b, (b.close s, log ++ [Call.close])))) ∧
    ipv4_addr.of_string "10.0.0.1:9000".toList = .ok { ip := 167772161, port := 9000 } ∧
    (udp_channel.of_impl (some (recording (spec_channel_impl (fun _ => true)),
        (({ closed := false, inbound := [], outbound := [] } : channel_state Packet δ),
          [])))).send_msg { ip := 167772161, port := 9000 } "ping".toList =
      .returned (future.ready (),
        udp_channel.of_impl (some (recording (spec_channel_impl (fun _ => true)),
          ({ closed := false, inbound := [],
             outbound := [({ ip := 167772161, port := 9000 }, Sum.inl "ping".toList)] },
            [Call.send_msg { ip := 167772161, port := 9000 } "ping".toList])))) :=
  ⟨rfl, rfl, rfl, rfl, rfl, rfl, rfl, rfl, rfl, rfl, by decide, rfl⟩

/-- C14: when the backend's `receive` resolves with a datagram built over the
implementation d, the facade's `receive` resolves with a datagram whose `get_src`,
`get_dst`, `get_dst_port` and `get_data` return exactly what d's return. -/
theorem received_datagram_addressing {Packet δ σ : Type} (b : udp_channel_impl Packet δ σ)
    (s s1 : σ) (di : udp_datagram_impl Packet δ) (d : δ)
    (h : b.receive s = (future.ready (udp_datagram.of_impl (some (di, d))), s1)) :
    ∃ dg, (udp_channel.of_impl (some (b, s))).receive =
        .returned (future.ready dg, udp_channel.of_impl (some (b, s1))) ∧
      Outcome.map Prod.fst dg.get_src = .returned (di.get_src d).1 ∧
      Outcome.map Prod.fst dg.get_dst = .returned (di.get_dst d).1 ∧
      Outcome.map Prod.fst dg.get_dst_port = .returned (di.get_dst_port d).1 ∧
      Outcome.map Prod.fst dg.get_data = .returned (di.get_data d).1 := by
  refine ⟨udp_datagram.of_impl (some (di, d)), ?_, rfl, rfl, rfl, rfl⟩
  simp only [udp_channel.receive, udp_channel.of_impl, h]

/-- A mock pre-loaded with one inbound datagram from 192.168.1.5:53: the received
datagram has that source. -/
theorem received_datagram_addressing_witness :
    (spec_channel_impl (fun _ => true)).receive
        ({ closed := false,
           inbound := [udp_datagram.of_impl (some (record_datagram_impl,
             ({ src := ⟨3232235781, 53⟩, dst := ⟨167772161, 9000⟩, data := [1, 2, 3] } :
               datagram_record (List Nat))))],
           outbound := [] } : channel_state (List Nat) (datagram_record (List Nat))) =
      (future.ready (udp_datagram.of_impl (some (record_datagram_impl,
          { src := ⟨3232235781, 53⟩, dst := ⟨167772161, 9000⟩, data := [1, 2, 3] }))),
        { closed := false, inbound := [], outbound := [] }) ∧
    ipv4_addr.of_string "192.168.1.5:53".toList = .ok ⟨3232235781, 53⟩ ∧
    ∃ dg, (udp_channel.of_impl (some (spec_channel_impl (fun _ => true),
          ({ closed := false,
             inbound := [udp_datagram.of_impl (some (record_datagram_impl,
               ({ src := ⟨3232235781, 53⟩, dst := ⟨167772161, 9000⟩, data := [1, 2, 3] } :
                 datagram_record (List Nat))))],
             outbound := [] } :
            channel_state (List Nat) (datagram_record (List Nat)))))).receive =
        .returned (future.ready dg, udp_channel.of_impl (some (spec_channel_impl (fun _ => true),
          { closed := false, inbound := [], outbound := [] }))) ∧
      Outcome.map Prod.fst dg.get_src =
        .returned (record_datagram_impl.get_src
          ({ src := ⟨3232235781, 53⟩, dst := ⟨167772161, 9000⟩, data := [1, 2, 3] } :
            datagram_record (List Nat))).1 ∧
      Outcome.map Prod.fst dg.get_dst =
        .returned (record_datagram_impl.get_dst
          ({ src := ⟨3232235781, 53⟩, dst := ⟨167772161, 9000⟩, data := [1, 2, 3] } :
            datagram_record (List Nat))).1 ∧
      Outcome.map Prod.fst dg.get_dst_port =
        .returned (record_datagram_impl.get_dst_port
          ({ src := ⟨3232235781, 53⟩, dst := ⟨167772161, 9000⟩, data := [1, 2, 3] } :
            datagram_record (List Nat))).1 ∧
      Outcome.map Prod.fst dg.get_data =
        .returned (record_datagram_impl.get_data
          ({ src := ⟨3232235781, 53⟩, dst := ⟨167772161, 9000⟩, data := [1, 2, 3] } :
            datagram_record (List Nat))).1 :=
  ⟨rfl, by decide,
    received_datagram_addressing (spec_channel_impl (fun _ => true)) _ _ record_datagram_impl
      { src := ⟨3232235781, 53⟩, dst := ⟨167772161, 9000⟩, data := [1, 2, 3] } rfl⟩

/-- C15: over the channel contract of the spec, after `close()` the channel reports
`is_closed()` true, and in any sequence of later calls every `receive` and every
`send` (either overload) resolves at once with `ChannelClosed`, every `is_closed` is
true, and the channel stays closed. -/
theorem closed_channel_behaviour {Packet δ : Type} (valid : ipv4_addr → Bool)
    (s : channel_state Packet δ) (calls : List (Call Packet)) :
    (udp_channel.of_impl (some (spec_channel_impl valid, s))).close =
      .returned (udp_channel.of_impl (some (spec_channel_impl valid, { s with closed := true }))) ∧
    (udp_channel.of_impl (some (spec_channel_impl valid, { s with closed := true }))).is_closed =
      .returned true ∧
    (udp_channel.of_impl (some (spec_channel_impl valid, { s with closed := true }))).run calls =
      .returned (calls.map closed_reply,
        udp_channel.of_impl (some (spec_channel_impl valid, { s with closed := true }))) :=
  ⟨rfl, rfl, run_closed valid { s with closed := true } rfl calls⟩

/-- C16: over the channel contract of the spec, a second `close()` returns normally and
leaves the channel in the state the first `close()` left it in, closed. -/
theorem close_idempotent {Packet δ : Type} (valid : ipv4_addr → Bool)
    (s : channel_state Packet δ) :
    (udp_channel.of_impl (some (spec_channel_impl valid, s))).close =
      .returned (udp_channel.of_impl (some (spec_channel_impl valid, { s with closed := true }))) ∧
    (udp_channel.of_impl (some (spec_channel_impl valid, { s with closed := true }))).close =
      .returned (udp_channel.of_impl (some (spec_channel_impl valid, { s with closed := true }))) ∧
    (udp_channel.of_impl (some (spec_channel_impl valid, { s with closed := true }))).is_closed =
      .returned true :=
  ⟨rfl, rfl, rfl⟩


end Seastar
